import Mathlib

/-!
Verification development for the content-addressable asset storage layer and
loading/caching pipeline of the numinia-hyperfy2 repository.

Embedded source files:
- `src/server/storage/FileStorage.js` (local backend adapter)
- `src/server/storage/AwsS3Storage.js` (object-store backend adapter)
- `src/server/storage/StorageManager.js` (key-value layer, throttled persistence)
- `src/server/storage/collectionsManager.js` (collection loading and ordering)
- `src/core/systems/ServerLoader.js` (server asset loader)
- `src/core/systems/ClientLoader.js` (client asset loader)

External collaborators (the AWS S3 API, the `fs-extra` filesystem helpers, the
lodash `throttle` utility, JSON serialization, and the JavaScript event loop
with run-to-completion semantics for the synchronous segments of async
functions) are modelled by their documented semantics, each noted where used.
-/

set_option maxHeartbeats 1000000

namespace Hyperfy

/-! ## Association-list maps

JavaScript `Map` and plain-object key access: `set` replaces the value in
place when the key is present and appends otherwise; `get` returns the first
match. -/

/-- Lookup the value bound to `k`, `none` when absent (JS `undefined`). -/
def getKV {κ α : Type} [DecidableEq κ] : List (κ × α) → κ → Option α
  | [], _ => none
  | (k', v') :: rest, k => if k' = k then some v' else getKV rest k

/-- Bind `k` to `v`: replace in place when present, append when absent. -/
def setKV {κ α : Type} [DecidableEq κ] : List (κ × α) → κ → α → List (κ × α)
  | [], k, v => [(k, v)]
  | (k', v') :: rest, k, v =>
      if k' = k then (k, v) :: rest else (k', v') :: setKV rest k v

/-- Presence test (JS `Map.has` / `in`). -/
def hasKV {κ α : Type} [DecidableEq κ] (l : List (κ × α)) (k : κ) : Bool :=
  (getKV l k).isSome

/-! ## String helpers

`String.includes` and the regular-expression test `/[a-f0-9]{64}\.glb/` used by
`ServerLoader.tryGetBuiltInFallback` (ServerLoader.js:159). -/

/-- Check `needle` against every suffix of the haystack character list. -/
def inclAux (needle : List Char) : List Char → Bool
  | [] => needle.isEmpty
  | c :: rest => needle.isPrefixOf (c :: rest) || inclAux needle rest

/-- JS `haystack.includes(needle)`: substring containment. -/
def strIncludes (haystack needle : String) : Bool :=
  inclAux needle.toList haystack.toList

/-- Character class `[a-f0-9]`. -/
def isHexLower (c : Char) : Bool :=
  ('0' ≤ c && c ≤ '9') || ('a' ≤ c && c ≤ 'f')

/-- Does the regex `[a-f0-9]{64}\.glb` match at the head of the list? -/
def hashGlbAt (l : List Char) : Bool :=
  (l.take 64).length == 64 && (l.take 64).all isHexLower
    && ((l.drop 64).take 4 == ['.', 'g', 'l', 'b'])

/-- Does `[a-f0-9]{64}\.glb` match anywhere in the list? -/
def containsHashGlbL : List Char → Bool
  | [] => false
  | c :: rest => hashGlbAt (c :: rest) || containsHashGlbL rest

/-- JS `s.match(/[a-f0-9]{64}\.glb/) !== null`. -/
def containsHashGlb (s : String) : Bool :=
  containsHashGlbL s.toList

/-! ## Backend adapters

`FileStorage` (FileStorage.js) and `AwsS3Storage` (AwsS3Storage.js). File
contents are byte lists; wall-clock time is passed explicitly as `now` so that
the filesystem `mtime` and the S3 `LastModified` attribute can be stated.
Filesystem semantics (`fs.exists`, `fs.writeFile`) and the S3 `PutObject`
operation (unconditional write, `LastModified` set to the time of the write)
follow their documented behaviour. -/

abbrev Bytes := List Nat

/-- Stored file of the local backend: content plus `birthtime`/`mtime`. -/
structure LocalFile where
  content : Bytes
  birthtime : Nat
  mtime : Nat
  deriving DecidableEq, Repr

/-- Local backend state: the flat `assets/` directory. -/
structure FSState where
  assets : List (String × LocalFile)
  deriving DecidableEq, Repr

/-- Configured mount point, `config.assetsUrl || '/assets'`
    (FileStorage.js:10). -/
def fsAssetsUrl : String := "/assets"

/-- FileStorage.uploadFile (FileStorage.js:54-67): check `fs.exists` first,
write only when absent, always return `assetsUrl + "/" + filename`. The
`contentType` argument is accepted and unused, as in the source. -/
def fsUploadFile (st : FSState) (now : Nat) (filename : String) (buffer : Bytes)
    (_contentType : String) : FSState × String :=
  let url := fsAssetsUrl ++ "/" ++ filename
  if hasKV st.assets filename then
    (st, url)
  else
    ({ assets := setKV st.assets filename ⟨buffer, now, now⟩ }, url)

/-- Stored S3 object. -/
structure S3Object where
  content : Bytes
  contentType : String
  lastModified : Nat
  deriving DecidableEq, Repr

/-- S3 bucket state: keys to objects. -/
structure S3State where
  objects : List (String × S3Object)
  deriving DecidableEq, Repr

/-- Relevant AwsS3Storage configuration (AwsS3Storage.js:8-14). -/
structure S3Config where
  bucketName : String
  region : String
  assetsPfx : String
  deriving DecidableEq, Repr

/-- AwsS3Storage.getS3BaseUrl (AwsS3Storage.js:160-162). -/
def s3BaseUrl (cfg : S3Config) : String :=
  "https://" ++ cfg.bucketName ++ ".s3." ++ cfg.region ++ ".amazonaws.com"

/-- AwsS3Storage.uploadFile (AwsS3Storage.js:181-196): one unconditional
`PutObjectCommand` under `assetsPrefix + filename` — no existence check — and
return the public URL. `PutObject` replaces any object already stored under
the key and stamps `LastModified` with the write time. -/
def s3UploadFile (st : S3State) (now : Nat) (cfg : S3Config) (filename : String)
    (buffer : Bytes) (contentType : String) : S3State × String :=
  let key := cfg.assetsPfx ++ filename
  ({ objects := setKV st.objects key ⟨buffer, contentType, now⟩ },
   s3BaseUrl cfg ++ "/" ++ key)

/-! ## Built-in-content seeding

`AwsS3Storage.copyDirectoryToS3` (AwsS3Storage.js:84-129) versus
`FileStorage.initialize` (FileStorage.js:16-34), which delegates wholesale to
`fs.copy`. A source directory is a list of entries; a file entry carries the
outcome of reading it (`Except`: a read failure is an error value). -/

/-- Entry of a bundled built-in directory. -/
inductive FsEntry : Type
  | file (name : String) (content : Except String Bytes)
  | dir (name : String) (entries : List FsEntry)

/-- AwsS3Storage.getContentType (AwsS3Storage.js:134-155). -/
def getContentType (filename : String) : String :=
  let ext := (filename.toLower.splitOn ".").getLastD ""
  if ext = "json" then "application/json"
  else if ext = "js" then "application/javascript"
  else if ext = "glb" then "application/octet-stream"
  else if ext = "gltf" then "application/json"
  else if ext = "jpg" then "image/jpeg"
  else if ext = "jpeg" then "image/jpeg"
  else if ext = "png" then "image/png"
  else if ext = "gif" then "image/gif"
  else if ext = "webp" then "image/webp"
  else if ext = "mp3" then "audio/mpeg"
  else if ext = "wav" then "audio/wav"
  else if ext = "mp4" then "video/mp4"
  else if ext = "webm" then "video/webm"
  else if ext = "txt" then "text/plain"
  else if ext = "html" then "text/html"
  else if ext = "css" then "text/css"
  else "application/octet-stream"

/-- AwsS3Storage.copyDirectoryToS3 (AwsS3Storage.js:84-129): per entry, a
directory recurses with an extended key prefix; a file is first checked with
`HeadObjectCommand` and skipped when it already exists; otherwise it is read
and put, and a read or put failure is logged and skipped — the loop always
continues with the remaining entries.  A `HeadObject` failure other than
`NotFound` is likewise logged and skipped (the `else` branch at line 123). -/
def s3CopyDir (objs : List (String × S3Object)) (now : Nat) (pfx : String) :
    List FsEntry → List (String × S3Object)
  | [] => objs
  | .dir n es :: rest =>
      s3CopyDir (s3CopyDir objs now (pfx ++ n ++ "/") es) now pfx rest
  | .file n c :: rest =>
      let key := pfx ++ n
      if hasKV objs key then s3CopyDir objs now pfx rest
      else
        match c with
        | .error _ => s3CopyDir objs now pfx rest
        | .ok b => s3CopyDir (setKV objs key ⟨b, getContentType n, now⟩) now pfx rest

/-- Seeding of the assets namespace on the object-store backend:
`copyBuiltInContent` invokes `copyDirectoryToS3(builtInAssetsDir,
this.assetsPrefix)` (AwsS3Storage.js:64); its surrounding try/catch never
propagates (AwsS3Storage.js:75-78). -/
def s3SeedAssets (st : S3State) (now : Nat) (cfg : S3Config)
    (entries : List FsEntry) : S3State :=
  { objects := s3CopyDir st.objects now cfg.assetsPfx entries }

/-- Local seeding: `FileStorage.initialize` runs `fs.copy(builtInAssetsDir,
this.assetsDir)` (FileStorage.js:26).  `fs.copy` copies every file,
overwriting a file that already exists at the destination (its default
`overwrite: true`), and stops with an error on the first failing file; that
error propagates out of `initialize`, which has no try/catch, and on through
`StorageManager.initialize` (StorageManager.js:61), aborting startup. -/
def fsCopyEntries (assets : List (String × LocalFile)) (now : Nat) (pfx : String) :
    List FsEntry → Except String (List (String × LocalFile))
  | [] => .ok assets
  | .dir n es :: rest =>
      match fsCopyEntries assets now (pfx ++ n ++ "/") es with
      | .error e => .error e
      | .ok as2 => fsCopyEntries as2 now pfx rest
  | .file n c :: rest =>
      match c with
      | .error e => .error e
      | .ok b =>
          let key := pfx ++ n
          let bt := match getKV assets key with
            | some f => f.birthtime
            | none => now
          fsCopyEntries (setKV assets key ⟨b, bt, now⟩) now pfx rest

/-- Seeding of the local assets directory (FileStorage.js:22-28). -/
def fsSeedAssets (st : FSState) (now : Nat) (entries : List FsEntry) :
    Except String FSState :=
  match fsCopyEntries st.assets now "" entries with
  | .error e => .error e
  | .ok as2 => .ok { assets := as2 }

/-! ## JSON round trip and the StorageManager key-value layer

`StorageManager.setStorageValue` (StorageManager.js:103-117) runs
`value = JSON.parse(JSON.stringify(value))` before the assignment.  `JValue`
is the image of that round trip; `JSValue` adds the JavaScript values the
round trip cannot accept at top level (`undefined`, functions) or anywhere
(`BigInt`, which makes `JSON.stringify` throw).  `JSON.stringify` maps
`undefined` and functions to `null` inside arrays and drops them from
objects; at top level it yields no JSON text at all, so the subsequent
`JSON.parse` throws.  Numbers are modelled as integers. -/

/-- JSON values: the possible results of `JSON.parse`. -/
inductive JValue : Type
  | jnull
  | jbool (b : Bool)
  | jnum (n : Int)
  | jstr (s : String)
  | jarr (xs : List JValue)
  | jobj (fields : List (String × JValue))

/-- JavaScript values as handed to `set(key, value)`. -/
inductive JSValue : Type
  | vundef
  | vfun
  | vbigint (n : Int)
  | vnull
  | vbool (b : Bool)
  | vnum (n : Int)
  | vstr (s : String)
  | varr (xs : List JSValue)
  | vobj (fields : List (String × JSValue))

mutual

/-- Top-level `JSON.parse(JSON.stringify(v))`: `none` when it throws
(`BigInt` anywhere; `undefined`/function at top level, whose stringification
is not JSON text). -/
def roundTrip : JSValue → Option JValue
  | .vundef => none
  | .vfun => none
  | .vbigint _ => none
  | .vnull => some .jnull
  | .vbool b => some (.jbool b)
  | .vnum n => some (.jnum n)
  | .vstr s => some (.jstr s)
  | .varr xs => (roundTripElems xs).map .jarr
  | .vobj fs => (roundTripFields fs).map .jobj

/-- Array elements: `undefined` and functions serialize as `null`. -/
def roundTripElem : JSValue → Option JValue
  | .vundef => some .jnull
  | .vfun => some .jnull
  | .vbigint _ => none
  | .vnull => some .jnull
  | .vbool b => some (.jbool b)
  | .vnum n => some (.jnum n)
  | .vstr s => some (.jstr s)
  | .varr xs => (roundTripElems xs).map .jarr
  | .vobj fs => (roundTripFields fs).map .jobj

/-- Elements of an array, in order. -/
def roundTripElems : List JSValue → Option (List JValue)
  | [] => some []
  | x :: xs =>
      match roundTripElem x, roundTripElems xs with
      | some j, some js => some (j :: js)
      | _, _ => none

/-- Object fields: entries whose value is `undefined` or a function are
dropped; `BigInt` still throws. -/
def roundTripFields : List (String × JSValue) → Option (List (String × JValue))
  | [] => some []
  | (_, .vundef) :: fs => roundTripFields fs
  | (_, .vfun) :: fs => roundTripFields fs
  | (k, v) :: fs =>
      match roundTrip v, roundTripFields fs with
      | some j, some js => some ((k, j) :: js)
      | _, _ => none

end

/-- In-memory state of the StorageManager key-value layer
(StorageManager.js:8-16). -/
structure SMState where
  storageData : List (String × JValue)
  storageLoaded : Bool

/-- StorageManager.getStorageValue (StorageManager.js:90-96): before the
initial load it warns and returns `undefined` (`none`); afterwards it returns
`this.storageData[key]`, which is also `undefined` for an absent key. -/
def getStorageValue (st : SMState) (key : String) : Option JValue :=
  if !st.storageLoaded then none
  else getKV st.storageData key

/-- StorageManager.setStorageValue (StorageManager.js:103-117).  Returns the
new state and whether the throttled `saveStorageData()` call was reached.
Before the load: warn and return.  Otherwise the value is round-tripped
through JSON inside the `try`; when that throws, the `catch` logs and neither
the assignment nor the persist call happens. -/
def setStorageValue (st : SMState) (key : String) (value : JSValue) :
    SMState × Bool :=
  if !st.storageLoaded then (st, false)
  else
    match roundTrip value with
    | none => (st, false)
    | some j => ({ st with storageData := setKV st.storageData key j }, true)

/-! ## Throttled persistence

`this.saveStorageData = throttle(() => this.persistStorageData(), 1000,
{ leading: true, trailing: true })` (StorageManager.js:15).  Lodash throttle
with both edges: a call while no window is open invokes immediately (leading
edge) and opens a 1000 ms window; calls inside an open window are absorbed
and mark a trailing invocation, which fires once when the window elapses,
reading the then-current in-memory document
(`persistStorageData`, StorageManager.js:122-134). -/

/-- Throttle bookkeeping: the end of the open window, if any, and whether a
trailing invocation is due. -/
structure ThrState where
  windowEnd : Option Nat
  trailingPending : Bool
  deriving DecidableEq, Repr

/-- One call of the throttled function at time `t`; `true` means the wrapped
function is invoked now (leading edge). -/
def throttleCall (ts : ThrState) (t : Nat) : ThrState × Bool :=
  match ts.windowEnd with
  | none => ({ windowEnd := some (t + 1000), trailingPending := false }, true)
  | some we =>
      if we ≤ t then
        ({ windowEnd := some (t + 1000), trailingPending := false }, true)
      else
        ({ ts with trailingPending := true }, false)

/-- Running state of a burst of `set` calls against one StorageManager:
key-value state, throttle state, and the persisted writes so far, each a
pair of (write time, document snapshot taken by `persistStorageData`). -/
structure BurstState where
  sm : SMState
  thr : ThrState
  persists : List (Nat × List (String × JValue))

/-- One `set(key, value)` call at time `t` (StorageManager.js:157-159 →
setStorageValue → throttled saveStorageData → persistStorageData, which
serializes `this.storageData` as of the moment it runs). -/
def burstSet (bs : BurstState) (ev : Nat × String × JSValue) : BurstState :=
  let (sm2, called) := setStorageValue bs.sm ev.2.1 ev.2.2
  if called then
    let (thr2, invokeNow) := throttleCall bs.thr ev.1
    { sm := sm2
      thr := thr2
      persists :=
        if invokeNow then bs.persists ++ [(ev.1, sm2.storageData)] else bs.persists }
  else
    { bs with sm := sm2 }

/-- The window elapses: the pending trailing invocation, if any, fires at the
window end with the current document, itself opening a fresh window. -/
def burstFlush (bs : BurstState) : BurstState :=
  match bs.thr.windowEnd with
  | none => bs
  | some we =>
      if bs.thr.trailingPending then
        { bs with
            thr := { windowEnd := some (we + 1000), trailingPending := false }
            persists := bs.persists ++ [(we, bs.sm.storageData)] }
      else bs

/-- Run a time-ordered burst of `set` events, then let the window elapse. -/
def runBurst (sm0 : SMState) (events : List (Nat × String × JSValue)) : BurstState :=
  burstFlush (events.foldl burstSet { sm := sm0, thr := ⟨none, false⟩, persists := [] })

/-! ## Collection ordering

`initCollectionsFromStorage` ends with `collections.sort((a, b) => { if
(a.id === 'default') return -1; if (b.id === 'default') return 1; return
a.id.localeCompare(b.id) })` (collectionsManager.js:507-512).  JS
`Array.prototype.sort` with a comparator is a stable comparison sort,
modelled as stable insertion sort; `localeCompare` on the ASCII slugs used as
collection ids coincides with codepoint comparison. -/

/-- Loaded collection as pushed by `initCollectionsFromStorage`. -/
structure Collection where
  id : String
  name : String
  blueprints : List String
  deriving DecidableEq, Repr

/-- Lexicographic strict comparison of character lists (codepoint order). -/
def charListLt : List Char → List Char → Bool
  | [], [] => false
  | [], _ :: _ => true
  | _ :: _, [] => false
  | c :: cs, d :: ds => if c < d then true else if d < c then false else charListLt cs ds

/-- JS `a.localeCompare(b)` on the ASCII slugs used as collection ids:
codepoint order. -/
def localeCompare (a b : String) : Int :=
  if charListLt a.data b.data then -1
  else if charListLt b.data a.data then 1
  else 0

/-- The comparator of collectionsManager.js:508-512. -/
def collectionCompare (a b : Collection) : Int :=
  if a.id = "default" then -1
  else if b.id = "default" then 1
  else localeCompare a.id b.id

/-- `a` may stay before `b` under the comparator. -/
def collLE (a b : Collection) : Bool :=
  collectionCompare a b ≤ 0

/-- Insert into a sorted list, keeping ties in input order (stability). -/
def insertSorted {α : Type} (le : α → α → Bool) (x : α) : List α → List α
  | [] => [x]
  | y :: ys => if le y x then y :: insertSorted le x ys else x :: y :: ys

/-- Stable insertion sort with a boolean comparator. -/
def sortWith {α : Type} (le : α → α → Bool) : List α → List α
  | [] => []
  | x :: xs => insertSorted le x (sortWith le xs)

/-- The sort performed on the loaded collection list. -/
def sortCollections (l : List Collection) : List Collection :=
  sortWith collLE l

/-! ## Asset loaders as transition systems

`ServerLoader` (ServerLoader.js) and `ClientLoader` (ClientLoader.js).
JavaScript executes the body of `load` up to its first `await` (and promise
executors up to theirs) synchronously and without preemption, so the
check-then-insert on the promise cache is one atomic step; the asynchronous
completion of a fetch+parse pipeline is a separate `settle` step.  Promises
are identified by freshly allocated numeric ids; `fetches` records, in order,
one entry per underlying fetch+parse pipeline started.  `loadLog` records the
value returned by each `load` call.  Re-running `execPreload` while a batch
is still settling is outside the modelled lifecycle, so the step function is
`Option`-valued and refuses it. -/

/-- State of a cached promise. -/
inductive PromState : Type
  | pending
  | fulfilled
  | rejectedWith (msg : Option String)
  deriving DecidableEq, Repr

/-- Is the promise settled (fulfilled or rejected)?  An absent id counts as
not settled. -/
def isSettled (proms : List (Nat × PromState)) (pid : Nat) : Bool :=
  match getKV proms pid with
  | some .pending => false
  | some _ => true
  | none => false

/-- `Promise.allSettled` over the values collected from the preload batch:
a non-promise entry (`undefined`, from an unhandled type) counts as settled
immediately. -/
def allSettledB (proms : List (Nat × PromState)) : List (Option Nat) → Bool
  | [] => true
  | none :: rest => allSettledB proms rest
  | some pid :: rest => isSettled proms pid && allSettledB proms rest

/-- ServerLoader state (ServerLoader.js:22-37): the `promises` cache maps a
key to the value stored by `this.promises.set(key, promise)` — `some pid`
for a created promise, `none` when the unhandled-type branch stores
`undefined`. -/
structure ServerState where
  promises : List (String × Option Nat)
  results : List (String × Nat)
  proms : List (Nat × PromState)
  pidKey : List (Nat × String)
  fetches : List String
  preloadItems : List (String × String)
  preloaderActive : Bool
  batchPids : List (Option Nat)
  fired : Bool
  loadLog : List (String × Option Nat)
  nextId : Nat
  deriving DecidableEq, Repr

/-- Fresh ServerLoader. -/
def serverInit : ServerState :=
  ⟨[], [], [], [], [], [], false, [], false, [], 0⟩

/-- ServerLoader.load (ServerLoader.js:188-286), the synchronous segment: on
a cache hit return the cached value; otherwise `model`/`emote`/`script`
start a fetch (fetchArrayBuffer or fetchText is entered synchronously inside
the promise executor) and cache a pending promise; `avatar` resolves
synchronously, also writing `results`; `audio` caches a promise rejected
with `null`; every other type leaves `promise` undefined yet still runs
`this.promises.set(key, promise)`.  Returns the value `load` returns. -/
def serverLoadNow (st : ServerState) (t url : String) : ServerState × Option Nat :=
  let key := t ++ "/" ++ url
  match getKV st.promises key with
  | some p => ({ st with loadLog := st.loadLog ++ [(key, p)] }, p)
  | none =>
      if t = "model" || t = "emote" || t = "script" then
        let pid := st.nextId
        ({ st with
            promises := setKV st.promises key (some pid)
            proms := setKV st.proms pid .pending
            pidKey := setKV st.pidKey pid key
            fetches := st.fetches ++ [key]
            loadLog := st.loadLog ++ [(key, some pid)]
            nextId := pid + 1 }, some pid)
      else if t = "avatar" then
        let pid := st.nextId
        ({ st with
            promises := setKV st.promises key (some pid)
            proms := setKV st.proms pid .fulfilled
            pidKey := setKV st.pidKey pid key
            results := setKV st.results key pid
            loadLog := st.loadLog ++ [(key, some pid)]
            nextId := pid + 1 }, some pid)
      else if t = "audio" then
        let pid := st.nextId
        ({ st with
            promises := setKV st.promises key (some pid)
            proms := setKV st.proms pid (.rejectedWith none)
            pidKey := setKV st.pidKey pid key
            loadLog := st.loadLog ++ [(key, some pid)]
            nextId := pid + 1 }, some pid)
      else
        ({ st with
            promises := setKV st.promises key none
            loadLog := st.loadLog ++ [(key, none)] }, none)

/-- ServerLoader.has (ServerLoader.js:43-46): `this.promises.has(key)` — true
also for a key mapped to `undefined`. -/
def serverHas (st : ServerState) (t url : String) : Bool :=
  hasKV st.promises (t ++ "/" ++ url)

/-- Call `load` on each registered item, collecting the returned values
(ServerLoader.js:58). -/
def serverLoadMany (st : ServerState) :
    List (String × String) → ServerState × List (Option Nat)
  | [] => (st, [])
  | (t, u) :: rest =>
      let (st1, r) := serverLoadNow st t u
      let (st2, rs) := serverLoadMany st1 rest
      (st2, r :: rs)

/-- When the batch is fully settled, the `allSettled` continuation runs:
`this.preloader = null` (ServerLoader.js:59-61).  `fired` records that the
continuation has run. -/
def serverCheckBarrier (st : ServerState) : ServerState :=
  if st.preloaderActive && allSettledB st.proms st.batchPids then
    { st with preloaderActive := false, fired := true }
  else st

/-- ServerLoader.execPreload (ServerLoader.js:57-62). -/
def serverExecPreload (st : ServerState) : Option ServerState :=
  if st.preloaderActive then none
  else
    let (st1, rets) := serverLoadMany st st.preloadItems
    some (serverCheckBarrier
      { st1 with preloaderActive := true, batchPids := rets, fired := false })

/-- A pending fetch+parse pipeline settles: success fulfills the promise and
(model/emote/script branches) stores the parsed result under the key; failure
rejects the promise with the error message.  A promise that is not pending is
unaffected.  The cache entry is never removed either way. -/
def serverSettle (st : ServerState) (pid : Nat) (res : Except String Unit) :
    ServerState :=
  match getKV st.proms pid with
  | some .pending =>
      let st1 :=
        match res with
        | .ok _ =>
            { st with
                proms := setKV st.proms pid .fulfilled
                results :=
                  match getKV st.pidKey pid with
                  | some key => setKV st.results key pid
                  | none => st.results }
        | .error m => { st with proms := setKV st.proms pid (.rejectedWith (some m)) }
      serverCheckBarrier st1
  | _ => st

/-- Observable events of the server loader. -/
inductive SOp : Type
  | preload (t url : String)
  | execPreload
  | load (t url : String)
  | settle (pid : Nat) (res : Except String Unit)

/-- One server-loader step. -/
def serverStep (st : ServerState) : SOp → Option ServerState
  | .preload t u => some { st with preloadItems := st.preloadItems ++ [(t, u)] }
  | .execPreload => serverExecPreload st
  | .load t u => some (serverLoadNow st t u).1
  | .settle pid r => some (serverSettle st pid r)

/-- Run a server-loader trace from the fresh state. -/
def runServer (ops : List SOp) : Option ServerState :=
  ops.foldlM serverStep serverInit

/-- ClientLoader state (ClientLoader.js:24-35).  `queuedLoads` are `load`
calls suspended on `await this.preloader` (ClientLoader.js:98-100), resumed
in FIFO order when the barrier settles. -/
structure ClientState where
  promises : List (String × Nat)
  results : List (String × Nat)
  proms : List (Nat × PromState)
  pidKey : List (Nat × String)
  fetches : List String
  preloadItems : List (String × String)
  preloaderActive : Bool
  batchPids : List (Option Nat)
  queuedLoads : List (String × String)
  readyCount : Nat
  fired : Bool
  loadLog : List (String × Nat)
  nextId : Nat
  deriving DecidableEq, Repr

/-- Fresh ClientLoader. -/
def clientInit : ClientState :=
  ⟨[], [], [], [], [], [], false, [], [], 0, false, [], 0⟩

/-- ClientLoader.load past the preloader gate (ClientLoader.js:101-217): on a
cache miss the promise `this.loadFile(url).then(...)` is created — `loadFile`
is entered synchronously, starting the fetch+parse pipeline — and cached
before returning. -/
def clientLoadNow (st : ClientState) (t url : String) : ClientState × Nat :=
  let key := t ++ "/" ++ url
  match getKV st.promises key with
  | some p => ({ st with loadLog := st.loadLog ++ [(key, p)] }, p)
  | none =>
      let pid := st.nextId
      ({ st with
          promises := setKV st.promises key pid
          proms := setKV st.proms pid .pending
          pidKey := setKV st.pidKey pid key
          fetches := st.fetches ++ [key]
          loadLog := st.loadLog ++ [(key, pid)]
          nextId := pid + 1 }, pid)

/-- ClientLoader.has (ClientLoader.js:47-50). -/
def clientHas (st : ClientState) (t url : String) : Bool :=
  hasKV st.promises (t ++ "/" ++ url)

/-- Call `load` on each registered item, collecting the returned promises
(ClientLoader.js:62; during the `map`, `this.preloader` is not yet
assigned, so these loads are not gated). -/
def clientLoadMany (st : ClientState) :
    List (String × String) → ClientState × List (Option Nat)
  | [] => (st, [])
  | (t, u) :: rest =>
      let (st1, r) := clientLoadNow st t u
      let (st2, rs) := clientLoadMany st1 rest
      (st2, some r :: rs)

/-- Resume the queued loads in FIFO order (each runs the body after its
`await this.preloader`, which re-checks the cache and proceeds). -/
def clientRunQueued (st : ClientState) : List (String × String) → ClientState
  | [] => st
  | (t, u) :: rest => clientRunQueued (clientLoadNow st t u).1 rest

/-- When all batch promises have settled the `allSettled` continuation runs:
`this.preloader = null; this.world.emit('ready', true)`
(ClientLoader.js:63-66); only then do the gated loads resume. -/
def clientCheckBarrier (st : ClientState) : ClientState :=
  if st.preloaderActive && allSettledB st.proms st.batchPids then
    let q := st.queuedLoads
    clientRunQueued
      { st with
          preloaderActive := false
          fired := true
          readyCount := st.readyCount + 1
          queuedLoads := [] } q
  else st

/-- ClientLoader.execPreload (ClientLoader.js:61-67). -/
def clientExecPreload (st : ClientState) : Option ClientState :=
  if st.preloaderActive then none
  else
    let (st1, rets) := clientLoadMany st st.preloadItems
    some (clientCheckBarrier
      { st1 with preloaderActive := true, batchPids := rets, fired := false })

/-- A pending fetch+parse pipeline settles (the `.then` body completes or
throws); the cache entry is never removed. -/
def clientSettle (st : ClientState) (pid : Nat) (res : Except String Unit) :
    ClientState :=
  match getKV st.proms pid with
  | some .pending =>
      let st1 :=
        match res with
        | .ok _ =>
            { st with
                proms := setKV st.proms pid .fulfilled
                results :=
                  match getKV st.pidKey pid with
                  | some key => setKV st.results key pid
                  | none => st.results }
        | .error m => { st with proms := setKV st.proms pid (.rejectedWith (some m)) }
      clientCheckBarrier st1
  | _ => st

/-- Observable events of the client loader. -/
inductive COp : Type
  | preload (t url : String)
  | execPreload
  | load (t url : String)
  | settle (pid : Nat) (res : Except String Unit)

/-- One client-loader step: a `load` issued while the preload batch is still
settling suspends on `await this.preloader` (ClientLoader.js:98-100) and is
queued. -/
def clientStep (st : ClientState) : COp → Option ClientState
  | .preload t u => some { st with preloadItems := st.preloadItems ++ [(t, u)] }
  | .execPreload => clientExecPreload st
  | .load t u =>
      if st.preloaderActive then
        some { st with queuedLoads := st.queuedLoads ++ [(t, u)] }
      else
        some (clientLoadNow st t u).1
  | .settle pid r => some (clientSettle st pid r)

/-- Run a client-loader trace from the fresh state. -/
def runClient (ops : List COp) : Option ClientState :=
  ops.foldlM clientStep clientInit

/-! ## Standalone model loading with built-in fallback

`ServerLoader.loadModel` and `ServerLoader.tryGetBuiltInFallback`
(ServerLoader.js:113-186).  The environment supplies `world.resolveURL`, the
byte fetch (`fetchArrayBuffer`), and GLTF parsing (the `THREE.GLTFLoader`
taken from the ambient module scope); buffers and parsed models are opaque
numeric tokens.  Note that the cached `load('model', url)` branch
(ServerLoader.js:207-225) fetches and parses directly and never calls
`loadModel`, so this fallback applies only to direct `loadModel` calls. -/

/-- Environment of the server loader. -/
structure SLEnv where
  resolve : String → String
  fetchBuf : String → Except String Nat
  parseGlb : Nat → Except String Nat

/-- The fixed table of built-in placeholder assets
(ServerLoader.js:164-174). -/
def builtInAssets : List String :=
  ["crash-block.glb", "emote-idle.glb", "emote-walk.glb", "emote-run.glb",
   "emote-jump.glb", "emote-fall.glb", "emote-flip.glb", "emote-float.glb",
   "emote-talk.glb"]

/-- The loop of tryGetBuiltInFallback (ServerLoader.js:177-182): the first
table entry containing "emote-idle" is returned when the original URL
contains "emote". -/
def fallbackScan (env : SLEnv) (originalUrl : String) : List String → Option String
  | [] => none
  | b :: rest =>
      if strIncludes originalUrl "emote" && strIncludes b "emote-idle" then
        some (env.resolve ("asset://" ++ b))
      else fallbackScan env originalUrl rest

/-- ServerLoader.tryGetBuiltInFallback (ServerLoader.js:157-186): `null` when
the resolved URL does not match `/[a-f0-9]{64}\.glb/`; otherwise the
emote-idle fallback when the original URL mentions "emote", else the generic
crash-block placeholder. -/
def tryGetBuiltInFallback (env : SLEnv) (originalUrl resolvedUrl : String) :
    Option String :=
  if !containsHashGlb resolvedUrl then none
  else
    match fallbackScan env originalUrl builtInAssets with
    | some u => some u
    | none => some (env.resolve "asset://crash-block.glb")

/-- Fetch then parse; either failure carries its error message, as both occur
inside the same `try` of loadModel. -/
def fetchAndParse (env : SLEnv) (u : String) : Except String Nat :=
  match env.fetchBuf u with
  | .error e => .error e
  | .ok buf => env.parseGlb buf

/-- ServerLoader.loadModel (ServerLoader.js:113-152).  The catch retries once
with the fallback URL when `(resolvedUrl.includes('.glb') &&
error.message.includes('404')) || error.message.includes('403')` and the
fallback differs from the resolved URL; a failing fallback is logged and the
original error is re-thrown. -/
def loadModelFn (env : SLEnv) (url : String) : Except String Nat :=
  let resolvedUrl := env.resolve url
  match fetchAndParse env resolvedUrl with
  | .ok g => .ok g
  | .error emsg =>
      if (strIncludes resolvedUrl ".glb" && strIncludes emsg "404")
          || strIncludes emsg "403" then
        match tryGetBuiltInFallback env url resolvedUrl with
        | some fb =>
            if fb ≠ resolvedUrl then
              match fetchAndParse env fb with
              | .ok g => .ok g
              | .error _ => .error emsg
            else .error emsg
        | none => .error emsg
      else .error emsg

/-- The cache-coherence invariant of a loader: each fetch+parse pipeline was
started for a distinct key, every started key is cached, and every value a
`load` call ever returned is exactly the cache entry of its key. -/
def CacheInv (fetches : List String) {π : Type} (promises : List (String × π))
    (loadLog : List (String × π)) : Prop :=
  fetches.Nodup
  ∧ (∀ k, k ∈ fetches → (getKV promises k).isSome = true)
  ∧ (∀ k r, (k, r) ∈ loadLog → getKV promises k = some r)

def serverCacheOK (st : ServerState) : Prop :=
  CacheInv st.fetches st.promises st.loadLog

/-- Cache coherence for the client loader. -/
def clientCacheOK (st : ClientState) : Prop :=
  CacheInv st.fetches st.promises st.loadLog

/-- Barrier soundness for the server loader: promise ids are allocated below
`nextId`, cached promises exist in the promise table, the registered batch
refers to existing promises, and once the barrier continuation has run the
whole batch is settled. -/
def BarrierInvS (st : ServerState) : Prop :=
  (∀ p ps, (p, ps) ∈ st.proms → p < st.nextId)
  ∧ (∀ k pid, getKV st.promises k = some (some pid) → (getKV st.proms pid).isSome = true)
  ∧ (∀ e, e ∈ st.batchPids → ∀ pid, e = some pid → (getKV st.proms pid).isSome = true)
  ∧ (st.fired = true → allSettledB st.proms st.batchPids = true)

/-- Concrete environment exercising the loadModel fallback: every fetch
fails with a not-found error except the resolved crash-block placeholder,
which fetches and parses. -/
def c4Env : SLEnv where
  resolve := fun s => if s = "asset://crash-block.glb" then "https://cdn/crash-block.glb" else s
  fetchBuf := fun s =>
    if s = "https://cdn/crash-block.glb" then .ok 7 else .error "HTTP 404: Not Found"
  parseGlb := fun _ => .ok 42

/-- A 64-hex-character hash-named model reference. -/
def c4HashUrl : String := String.mk (List.replicate 64 'a') ++ ".glb"

/-- Barrier soundness for the client loader. -/
def BarrierInvC (st : ClientState) : Prop :=
  (∀ p ps, (p, ps) ∈ st.proms → p < st.nextId)
  ∧ (∀ k pid, getKV st.promises k = some pid → (getKV st.proms pid).isSome = true)
  ∧ (∀ e, e ∈ st.batchPids → ∀ pid, e = some pid → (getKV st.proms pid).isSome = true)
  ∧ (st.fired = true → allSettledB st.proms st.batchPids = true)

/-! ## Theorems -/

theorem getKV_setKV_self {κ α : Type} [DecidableEq κ] (l : List (κ × α)) (k : κ) (v : α) :
    getKV (setKV l k v) k = some v := by
  induction l with
  | nil => simp [setKV, getKV]
  | cons hd tl ih =>
      obtain ⟨k', v'⟩ := hd
      by_cases h : k' = k
      · simp [setKV, h, getKV]
      · simp [setKV, h, getKV, ih]

theorem getKV_setKV_other {κ α : Type} [DecidableEq κ] (l : List (κ × α)) (k k' : κ) (v : α)
    (hne : k' ≠ k) : getKV (setKV l k v) k' = getKV l k' := by
  have hne' : ¬ k = k' := fun h => hne h.symm
  induction l with
  | nil => simp [setKV, getKV, hne']
  | cons hd tl ih =>
      obtain ⟨k0, v0⟩ := hd
      by_cases h : k0 = k
      · subst h
        simp [setKV, getKV, hne']
      · by_cases h' : k0 = k'
        · simp [setKV, h, getKV, h', hne]
        · simp [setKV, h, getKV, h', ih]

theorem insertSorted_perm {α : Type} (le : α → α → Bool) (x : α) (l : List α) :
    (insertSorted le x l).Perm (x :: l) := by
  induction l with
  | nil => simp [insertSorted]
  | cons y ys ih =>
      by_cases h : le y x = true
      · simp only [insertSorted, h, if_true]
        exact ((ih.cons y).trans (List.Perm.swap x y ys))
      · simp only [insertSorted, h]
        simp

theorem sortWith_perm {α : Type} (le : α → α → Bool) (l : List α) :
    (sortWith le l).Perm l := by
  induction l with
  | nil => simp [sortWith]
  | cons x xs ih =>
      exact (insertSorted_perm le x (sortWith le xs)).trans (ih.cons x)

theorem insertSorted_sorted {α : Type} (le : α → α → Bool)
    (htot : ∀ a b, le a b = false → le b a = true)
    (htrans : ∀ a b c, le a b = true → le b c = true → le a c = true)
    (x : α) (l : List α)
    (hl : l.Sorted (fun a b => le a b = true)) :
    (insertSorted le x l).Sorted (fun a b => le a b = true) := by
  induction l with
  | nil => simp [insertSorted]
  | cons y ys ih =>
      rcases List.sorted_cons.mp hl with ⟨hy, hys⟩
      by_cases h : le y x = true
      · simp only [insertSorted, h, if_true]
        refine List.sorted_cons.mpr ⟨?_, ih hys⟩
        intro b hb
        have := (insertSorted_perm le x ys).mem_iff.mp hb
        rcases List.mem_cons.mp this with hbx | hby
        · subst hbx; exact h
        · exact hy b hby
      · have hxy : le x y = true := htot y x (by simpa using h)
        simp only [insertSorted, h]
        simp only [if_false, Bool.false_eq_true]
        refine List.sorted_cons.mpr ⟨?_, hl⟩
        intro b hb
        rcases List.mem_cons.mp hb with hby | hbys
        · subst hby; exact hxy
        · exact htrans x y b hxy (hy b hbys)

theorem sortWith_sorted {α : Type} (le : α → α → Bool)
    (htot : ∀ a b, le a b = false → le b a = true)
    (htrans : ∀ a b c, le a b = true → le b c = true → le a c = true)
    (l : List α) :
    (sortWith le l).Sorted (fun a b => le a b = true) := by
  induction l with
  | nil => simp [sortWith]
  | cons x xs ih => exact insertSorted_sorted le htot htrans x (sortWith le xs) ih

theorem charListLt_irrefl : ∀ l : List Char, charListLt l l = false := by
  intro l
  induction l with
  | nil => simp [charListLt]
  | cons c cs ih => simp [charListLt, lt_irrefl, ih]

theorem charListLt_asymm : ∀ a b : List Char, charListLt a b = true → charListLt b a = false := by
  intro a
  induction a with
  | nil =>
      intro b h
      cases b with
      | nil => simp [charListLt] at h
      | cons d ds => simp [charListLt]
  | cons c cs ih =>
      intro b h
      cases b with
      | nil => simp [charListLt] at h
      | cons d ds =>
          simp only [charListLt] at h ⊢
          by_cases h1 : c < d
          · have h2 : ¬ d < c := lt_asymm h1
            simp [h1, h2]
          · by_cases h2 : d < c
            · simp [h1, h2] at h
            · simp [h1, h2] at h ⊢
              exact ih ds h

theorem charListLt_connex : ∀ a b : List Char,
    charListLt a b = false → charListLt b a = false → a = b := by
  intro a
  induction a with
  | nil =>
      intro b h1 h2
      cases b with
      | nil => rfl
      | cons d ds => simp [charListLt] at h1
  | cons c cs ih =>
      intro b h1 h2
      cases b with
      | nil => simp [charListLt] at h2
      | cons d ds =>
          simp only [charListLt] at h1 h2
          by_cases hcd : c < d
          · simp [hcd] at h1
          · by_cases hdc : d < c
            · simp [hdc, hcd] at h2
            · have he : c = d := le_antisymm (not_lt.mp hdc) (not_lt.mp hcd)
              simp [hcd, hdc] at h1 h2
              rw [he, ih ds h1 h2]

theorem charListLt_trans : ∀ a b c : List Char,
    charListLt a b = true → charListLt b c = true → charListLt a c = true := by
  intro a
  induction a with
  | nil =>
      intro b c h1 h2
      cases b with
      | nil => simp [charListLt] at h1
      | cons d ds =>
          cases c with
          | nil => simp [charListLt] at h2
          | cons e es => simp [charListLt]
  | cons x xs ih =>
      intro b c h1 h2
      cases b with
      | nil => simp [charListLt] at h1
      | cons d ds =>
          cases c with
          | nil => simp [charListLt] at h2
          | cons e es =>
              simp only [charListLt] at h1 h2 ⊢
              by_cases hxd : x < d
              · by_cases hde : d < e
                · simp [lt_trans hxd hde]
                · by_cases hed : e < d
                  · simp [hde, hed] at h2
                  · have : d = e := le_antisymm (not_lt.mp hed) (not_lt.mp hde)
                    rw [← this]
                    simp [hxd]
              · by_cases hdx : d < x
                · simp [hxd, hdx] at h1
                · have hxd2 : x = d := le_antisymm (not_lt.mp hdx) (not_lt.mp hxd)
                  subst hxd2
                  simp [hxd, hdx] at h1
                  by_cases hxe : x < e
                  · simp [hxe]
                  · by_cases hex : e < x
                    · simp [hex, hxe] at h2
                    · simp [hxe, hex] at h2 ⊢
                      exact ih ds es h1 h2

theorem charListLt_false_trans : ∀ a b c : List Char,
    charListLt b a = false → charListLt c b = false → charListLt c a = false := by
  intro a b c hba hcb
  by_cases hca : charListLt c a = true
  · by_cases hbc : charListLt b c = true
    · rw [charListLt_trans b c a hbc hca] at hba
      cases hba
    · have hbe : b = c := charListLt_connex b c
        (by revert hbc; cases charListLt b c <;> simp) hcb
      rw [← hbe] at hca
      rw [hca] at hba
      cases hba
  · revert hca
    cases charListLt c a <;> simp

theorem localeCompare_le_iff (a b : String) :
    (localeCompare a b ≤ 0) ↔ charListLt b.data a.data = false := by
  unfold localeCompare
  by_cases h1 : charListLt a.data b.data = true
  · simp [h1, charListLt_asymm a.data b.data h1]
  · by_cases h2 : charListLt b.data a.data = true
    · simp [h1, h2]
    · simp only [h1, h2]
      revert h2
      cases charListLt b.data a.data <;> simp

theorem collLE_total : ∀ a b : Collection, collLE a b = false → collLE b a = true := by
  intro a b h
  by_cases ha : a.id = "default"
  · simp [collLE, collectionCompare, ha] at h
  · by_cases hb : b.id = "default"
    · simp [collLE, collectionCompare, hb]
    · simp only [collLE, collectionCompare, ha, hb, if_false] at h ⊢
      simp only [decide_eq_false_iff_not, localeCompare_le_iff] at h
      simp only [decide_eq_true_eq, localeCompare_le_iff]
      revert h
      by_cases h2 : charListLt a.id.data b.id.data = true
      · intro h
        exact absurd (charListLt_asymm _ _ h2) h
      · intro h
        revert h2
        cases charListLt a.id.data b.id.data <;> simp

theorem collLE_trans : ∀ a b c : Collection,
    collLE a b = true → collLE b c = true → collLE a c = true := by
  intro a b c hab hbc
  by_cases ha : a.id = "default"
  · simp [collLE, collectionCompare, ha]
  · by_cases hb : b.id = "default"
    · simp [collLE, collectionCompare, ha, hb] at hab
    · by_cases hc : c.id = "default"
      · simp [collLE, collectionCompare, hb, hc] at hbc
      · simp only [collLE, collectionCompare, ha, hb, hc, if_false,
          decide_eq_true_eq, localeCompare_le_iff] at hab hbc ⊢
        exact charListLt_false_trans a.id.data b.id.data c.id.data hab hbc

theorem charListLt_not_lt_iff (a b : List Char) :
    charListLt b a = false ↔ (charListLt a b = true ∨ a = b) := by
  constructor
  · intro h
    by_cases h2 : charListLt a b = true
    · exact Or.inl h2
    · exact Or.inr (charListLt_connex a b
        (by revert h2; cases charListLt a b <;> simp) h)
  · intro h
    rcases h with h | h
    · exact charListLt_asymm a b h
    · rw [h]
      exact charListLt_irrefl b

/-- Claim C9: after all collections are processed, the comparator sorts the
list with `"default"` first and all other ids in lexicographic (codepoint)
order: the sort permutes the input, its output is sorted by the comparator,
the comparator orders `a` no later than `b` exactly when `a.id` is
`"default"` or `b.id` is not `"default"` and `a.id` is lexicographically at
most `b.id`, and the spec example sorts as stated. -/
theorem C9_thm :
    (∀ l : List Collection, (sortCollections l).Perm l)
    ∧ (∀ l : List Collection, (sortCollections l).Sorted (fun a b => collLE a b = true))
    ∧ (∀ a b : Collection, collLE a b = true ↔
        (a.id = "default" ∨ (b.id ≠ "default" ∧
          (charListLt a.id.data b.id.data = true ∨ a.id = b.id))))
    ∧ sortCollections
        [⟨"zebra", "zebra", []⟩, ⟨"default", "default", []⟩, ⟨"alpha", "alpha", []⟩]
        = [⟨"default", "default", []⟩, ⟨"alpha", "alpha", []⟩, ⟨"zebra", "zebra", []⟩] := by
  refine ⟨?_, ?_, ?_, ?_⟩
  · intro l
    exact sortWith_perm collLE l
  · intro l
    exact sortWith_sorted collLE collLE_total collLE_trans l
  · intro a b
    by_cases ha : a.id = "default"
    · simp [collLE, collectionCompare, ha]
    · by_cases hb : b.id = "default"
      · simp [collLE, collectionCompare, ha, hb]
      · simp only [collLE, collectionCompare, ha, hb, if_false,
          decide_eq_true_eq, localeCompare_le_iff, charListLt_not_lt_iff]
        simp [ha, hb, String.ext_iff]
  · decide

/-- Claim C6 counterexample: a `get` issued before the initial load returns
`undefined`, which is exactly the value returned for an absent key after the
load has completed — the two outcomes are not distinguishable, contrary to
the claim of an explicit distinct sentinel. -/
theorem C6_counterexample :
    getStorageValue ⟨[], false⟩ "k" = none
      ∧ getStorageValue ⟨[], true⟩ "k" = none
      ∧ getStorageValue ⟨[], false⟩ "k" = getStorageValue ⟨[], true⟩ "k" :=
  ⟨rfl, rfl, rfl⟩

/-- Claim C6 (amended): a key-value `get(key)` issued before the initial
storage-document load completes returns `undefined` (after logging a
warning); that is the same value as is returned for a key absent after the
load, so the two cases are not distinguishable by the returned value. -/
theorem C6_amended_thm :
    ∀ (st st2 : SMState) (key : String),
      (st.storageLoaded = false → getStorageValue st key = none)
      ∧ (st2.storageLoaded = true → getKV st2.storageData key = none →
          getStorageValue st2 key = none) := by
  intro st st2 key
  constructor
  · intro h
    simp [getStorageValue, h]
  · intro h habs
    simp [getStorageValue, h, habs]

/-- Witness for C6_amended_thm at concrete states. -/
theorem C6_amended_witness :
    getStorageValue ⟨[("a", JValue.jnull)], false⟩ "k" = none
      ∧ getStorageValue ⟨[("a", JValue.jnull)], true⟩ "k" = none :=
  ⟨(C6_amended_thm ⟨[("a", JValue.jnull)], false⟩ ⟨[("a", JValue.jnull)], true⟩ "k").1 rfl,
   (C6_amended_thm ⟨[("a", JValue.jnull)], false⟩ ⟨[("a", JValue.jnull)], true⟩ "k").2 rfl rfl⟩

/-- Claim C8: every `set(key, value)` passes the value through one JSON
serialize/deserialize round trip before accepting it; a value that cannot be
serialized is rejected early — the in-memory document is unchanged and no
persist is scheduled — while a serializable value is stored in its
round-tripped form and a persist is scheduled. -/
theorem C8_thm :
    ∀ (st : SMState) (key : String) (v : JSValue),
      st.storageLoaded = true →
      (roundTrip v = none → setStorageValue st key v = (st, false))
      ∧ (∀ j, roundTrip v = some j →
          setStorageValue st key v
            = ({ st with storageData := setKV st.storageData key j }, true)) := by
  intro st key v hl
  constructor
  · intro h
    simp [setStorageValue, hl, h]
  · intro j h
    simp [setStorageValue, hl, h]

/-- Witness for C8_thm: `undefined` (whose stringification is not JSON text)
is rejected leaving the document untouched with no persist; a number is
accepted, stored round-tripped, and schedules a persist. -/
theorem C8_witness :
    setStorageValue ⟨[], true⟩ "k" JSValue.vundef = (⟨[], true⟩, false)
      ∧ setStorageValue ⟨[], true⟩ "k" (JSValue.vnum 3)
          = (⟨[("k", JValue.jnum 3)], true⟩, true) :=
  ⟨(C8_thm ⟨[], true⟩ "k" JSValue.vundef rfl).1 rfl,
   (C8_thm ⟨[], true⟩ "k" (JSValue.vnum 3) rfl).2 (JValue.jnum 3) rfl⟩

/-- Claim C1 counterexample: on the object-store backend, uploading under an
already-existing name is not a no-op — `PutObjectCommand` is sent
unconditionally, so the stored object is rewritten and its `modifiedAt`
changes, even for identical bytes. -/
theorem C1_counterexample :
    getKV (S3State.objects ⟨[("assets/f.glb", ⟨[1], "application/octet-stream", 5⟩)]⟩)
        "assets/f.glb" = some ⟨[1], "application/octet-stream", 5⟩
      ∧ getKV (s3UploadFile ⟨[("assets/f.glb", ⟨[1], "application/octet-stream", 5⟩)]⟩
            10 ⟨"b", "us-east-1", "assets/"⟩ "f.glb" [1] "application/octet-stream").1.objects
          "assets/f.glb" = some ⟨[1], "application/octet-stream", 10⟩
      ∧ (10 : Nat) ≠ 5 :=
  ⟨rfl, rfl, by decide⟩

/-- Claim C1 (amended): the local backend satisfies the claim — upload writes
if and only if no file with that name exists, a collision is a no-op that
leaves the stored file (including `modifiedAt`) unchanged and still returns
the same locator, and a repeated identical upload leaves exactly one stored
file.  The object-store backend instead writes unconditionally: a repeated
upload under the same name still returns the same locator and keeps exactly
one object under that name, but rewrites the object, setting its
`modifiedAt` to the time of the second call. -/
theorem C1_amended_thm :
    (∀ (st : FSState) (now : Nat) (fn : String) (buf : Bytes) (ct : String),
        hasKV st.assets fn = true →
        fsUploadFile st now fn buf ct = (st, fsAssetsUrl ++ "/" ++ fn))
    ∧ (∀ (st : FSState) (now : Nat) (fn : String) (buf : Bytes) (ct : String),
        hasKV st.assets fn = false →
        fsUploadFile st now fn buf ct
          = ({ assets := setKV st.assets fn ⟨buf, now, now⟩ },
             fsAssetsUrl ++ "/" ++ fn))
    ∧ (∀ (st : FSState) (now1 now2 : Nat) (fn : String) (buf : Bytes) (ct : String),
        fsUploadFile (fsUploadFile st now1 fn buf ct).1 now2 fn buf ct
          = ((fsUploadFile st now1 fn buf ct).1, fsAssetsUrl ++ "/" ++ fn))
    ∧ (∀ (st : S3State) (now : Nat) (cfg : S3Config) (fn : String) (buf : Bytes) (ct : String),
        s3UploadFile st now cfg fn buf ct
          = ({ objects := setKV st.objects (cfg.assetsPfx ++ fn) ⟨buf, ct, now⟩ },
             s3BaseUrl cfg ++ "/" ++ (cfg.assetsPfx ++ fn)))
    ∧ (∀ (st : S3State) (now1 now2 : Nat) (cfg : S3Config) (fn : String) (buf : Bytes) (ct : String),
        getKV (s3UploadFile (s3UploadFile st now1 cfg fn buf ct).1 now2 cfg fn buf ct).1.objects
            (cfg.assetsPfx ++ fn) = some ⟨buf, ct, now2⟩
          ∧ (s3UploadFile (s3UploadFile st now1 cfg fn buf ct).1 now2 cfg fn buf ct).2
              = (s3UploadFile st now1 cfg fn buf ct).2) := by
  refine ⟨?_, ?_, ?_, ?_, ?_⟩
  · intro st now fn buf ct h
    simp [fsUploadFile, h]
  · intro st now fn buf ct h
    simp [fsUploadFile, h]
  · intro st now1 now2 fn buf ct
    by_cases h : hasKV st.assets fn = true
    · simp [fsUploadFile, h]
    · have h' : hasKV st.assets fn = false := by
        revert h
        cases hasKV st.assets fn <;> simp
      have h2 : hasKV (setKV st.assets fn ⟨buf, now1, now1⟩) fn = true := by
        simp [hasKV, getKV_setKV_self]
      simp [fsUploadFile, h', h2]
  · intro st now cfg fn buf ct
    rfl
  · intro st now1 now2 cfg fn buf ct
    exact ⟨by simp [s3UploadFile, getKV_setKV_self], rfl⟩

/-- Witness for C1_amended_thm: a collision no-op and a fresh write on the
local backend at concrete states. -/
theorem C1_witness :
    fsUploadFile ⟨[("f.glb", ⟨[1], 3, 5⟩)]⟩ 10 "f.glb" [2] "ct"
        = (⟨[("f.glb", ⟨[1], 3, 5⟩)]⟩, "/assets/f.glb")
      ∧ fsUploadFile ⟨[]⟩ 7 "g.glb" [9] "ct"
          = (⟨[("g.glb", ⟨[9], 7, 7⟩)]⟩, "/assets/g.glb") :=
  ⟨C1_amended_thm.1 ⟨[("f.glb", ⟨[1], 3, 5⟩)]⟩ 10 "f.glb" [2] "ct" rfl,
   C1_amended_thm.2.1 ⟨[]⟩ 7 "g.glb" [9] "ct" rfl⟩

/-- Helper: the object-store seeding pass never touches a key that already
exists in the bucket. -/
theorem s3CopyDir_preserves (objs : List (String × S3Object)) (now : Nat) (pfx : String)
    (es : List FsEntry) :
    ∀ k, hasKV objs k = true → getKV (s3CopyDir objs now pfx es) k = getKV objs k := by
  induction objs, now, pfx, es using s3CopyDir.induct with
  | case1 objs now pfx =>
      intro k h
      simp [s3CopyDir]
  | case2 objs now pfx n es2 rest ih1 ih2 =>
      intro k h
      have h1 := ih1 k h
      have h2 : hasKV (s3CopyDir objs now (pfx ++ n ++ "/") es2) k = true := by
        simpa [hasKV, h1] using h
      rw [s3CopyDir.eq_def]
      simp only []
      rw [ih2 k h2, h1]
  | case3 objs now pfx n c rest key hpresent ih =>
      intro k h
      rw [s3CopyDir.eq_def]
      simp only []
      rw [if_pos hpresent]
      exact ih k h
  | case4 objs now pfx n rest key habsent a ih =>
      intro k h
      rw [s3CopyDir.eq_def]
      simp only []
      rw [if_neg habsent]
      exact ih k h
  | case5 objs now pfx n rest key habsent b ih =>
      intro k h
      rw [s3CopyDir.eq_def]
      simp only []
      rw [if_neg habsent]
      have hk : k ≠ key := by
        intro he
        rw [he] at h
        exact habsent h
      have hset : getKV (setKV objs key
          (⟨b, getContentType n, now⟩ : S3Object)) k = getKV objs k :=
        getKV_setKV_other _ _ _ _ hk
      have h2 : hasKV (setKV objs key
          (⟨b, getContentType n, now⟩ : S3Object)) k = true := by
        simpa [hasKV, hset] using h
      rw [ih k h2, hset]

/-- Claim C5 counterexample: local-backend seeding is not per-file
if-absent — `fs.copy` overwrites.  A world directory already holding
`a.glb` with content `[1]` ends up with the bundled content `[2]` after
seeding, so an existing file was overwritten. -/
theorem C5_counterexample :
    fsSeedAssets ⟨[("a.glb", ⟨[1], 0, 0⟩)]⟩ 9 [FsEntry.file "a.glb" (.ok [2])]
        = .ok ⟨[("a.glb", ⟨[2], 0, 9⟩)]⟩
      ∧ ([2] : Bytes) ≠ [1] :=
  ⟨by simp [fsSeedAssets, fsCopyEntries, getKV, setKV], by decide⟩

/-- Claim C5 (amended): on the object-store backend, seeding copies each
bundled file if and only if it is absent — an existing object is never
touched — and a per-file read failure is logged and skipped, the remaining
batch proceeding exactly as if that file were not listed.  On the local
backend, `fs.copy` copies every bundled file unconditionally, overwriting an
existing file with the bundled content, and a per-file failure aborts the
whole copy (and with it startup) instead of being skipped. -/
theorem C5_amended_thm :
    (∀ (st : S3State) (now : Nat) (cfg : S3Config) (es : List FsEntry) (k : String),
        hasKV st.objects k = true →
        getKV (s3SeedAssets st now cfg es).objects k = getKV st.objects k)
    ∧ (∀ (objs : List (String × S3Object)) (now : Nat) (pfx n e : String)
          (rest : List FsEntry),
        s3CopyDir objs now pfx (FsEntry.file n (.error e) :: rest)
          = s3CopyDir objs now pfx rest)
    ∧ (∀ (objs : List (String × S3Object)) (now : Nat) (pfx n : String) (b : Bytes)
          (rest : List FsEntry),
        hasKV objs (pfx ++ n) = false →
        s3CopyDir objs now pfx (FsEntry.file n (.ok b) :: rest)
          = s3CopyDir (setKV objs (pfx ++ n) ⟨b, getContentType n, now⟩) now pfx rest)
    ∧ (∀ (assets : List (String × LocalFile)) (now : Nat) (pfx n : String) (b : Bytes)
          (f0 : LocalFile),
        getKV assets (pfx ++ n) = some f0 →
        fsCopyEntries assets now pfx [FsEntry.file n (.ok b)]
          = .ok (setKV assets (pfx ++ n) ⟨b, f0.birthtime, now⟩))
    ∧ (∀ (assets : List (String × LocalFile)) (now : Nat) (pfx n e : String)
          (rest : List FsEntry),
        fsCopyEntries assets now pfx (FsEntry.file n (.error e) :: rest)
          = .error e) := by
  refine ⟨?_, ?_, ?_, ?_, ?_⟩
  · intro st now cfg es k h
    exact s3CopyDir_preserves st.objects now cfg.assetsPfx es k h
  · intro objs now pfx n e rest
    by_cases h : hasKV objs (pfx ++ n) = true
    · rw [s3CopyDir.eq_def]
      simp only []
      rw [if_pos h]
    · rw [s3CopyDir.eq_def]
      simp only []
      rw [if_neg h]
  · intro objs now pfx n b rest h
    have h' : ¬ hasKV objs (pfx ++ n) = true := by
      simp [h]
    rw [s3CopyDir.eq_def]
    simp only []
    rw [if_neg h']
  · intro assets now pfx n b f0 h
    rw [fsCopyEntries.eq_def]
    simp only [h]
    rw [fsCopyEntries.eq_def]
  · intro assets now pfx n e rest
    rw [fsCopyEntries.eq_def]

/-- Witness for C5_amended_thm at concrete states: an existing bucket object
survives seeding unchanged; an absent file is copied; an existing local file
is overwritten. -/
theorem C5_witness :
    getKV (s3SeedAssets ⟨[("assets/a.glb", ⟨[1], "application/octet-stream", 0⟩)]⟩ 9
          ⟨"b", "r", "assets/"⟩ [FsEntry.file "a.glb" (.ok [2])]).objects "assets/a.glb"
        = getKV (S3State.objects ⟨[("assets/a.glb", ⟨[1], "application/octet-stream", 0⟩)]⟩)
          "assets/a.glb"
      ∧ s3CopyDir [] 9 "assets/" [FsEntry.file "a.glb" (.ok [2])]
          = s3CopyDir (setKV [] ("assets/" ++ "a.glb") ⟨[2], getContentType "a.glb", 9⟩) 9
              "assets/" []
      ∧ fsCopyEntries [("a.glb", ⟨[1], 0, 0⟩)] 9 "" [FsEntry.file "a.glb" (.ok [2])]
          = .ok (setKV [("a.glb", ⟨[1], 0, 0⟩)] ("" ++ "a.glb") ⟨[2], 0, 9⟩) :=
  ⟨C5_amended_thm.1 ⟨[("assets/a.glb", ⟨[1], "application/octet-stream", 0⟩)]⟩ 9
      ⟨"b", "r", "assets/"⟩ [FsEntry.file "a.glb" (.ok [2])] "assets/a.glb" rfl,
   C5_amended_thm.2.2.1 [] 9 "assets/" "a.glb" [2] [] rfl,
   C5_amended_thm.2.2.2.1 [("a.glb", ⟨[1], 0, 0⟩)] 9 "" "a.glb" [2] ⟨[1], 0, 0⟩ rfl⟩

/-- Helper: a call of the throttled save with no window open invokes on the
leading edge and opens a window. -/
theorem throttleCall_fresh (t : Nat) :
    throttleCall ⟨none, false⟩ t = (⟨some (t + 1000), false⟩, true) := rfl

/-- Helper: a call inside an open window is absorbed, marking the trailing
invocation. -/
theorem throttleCall_absorb (we t : Nat) (p : Bool) (h : ¬ we ≤ t) :
    throttleCall ⟨some we, p⟩ t = (⟨some we, true⟩, false) := by
  simp [throttleCall, h]

/-- Helper: one `set` of a serializable value on a loaded manager updates the
document and routes through the throttle. -/
theorem burstSet_eq (d : List (String × JValue)) (thr : ThrState)
    (ps : List (Nat × List (String × JValue))) (t : Nat) (k : String) (v : JSValue)
    (j : JValue) (hrt : roundTrip v = some j) :
    burstSet ⟨⟨d, true⟩, thr, ps⟩ (t, k, v)
      = ⟨⟨setKV d k j, true⟩, (throttleCall thr t).1,
         if (throttleCall thr t).2 then ps ++ [(t, setKV d k j)] else ps⟩ := by
  simp [burstSet, setStorageValue, hrt]

/-- Claim C7: five `set` calls of serializable values within one throttle
window produce exactly two persisted writes — the leading edge at the first
call and the trailing edge when the window elapses — and the trailing
write's document carries the value of the last `set` in the burst. -/
theorem C7_thm :
    ∀ (d0 : List (String × JValue)) (t1 t2 t3 t4 t5 : Nat) (k1 k2 k3 k4 k5 : String)
      (v1 v2 v3 v4 v5 : JSValue) (j1 j2 j3 j4 j5 : JValue),
      roundTrip v1 = some j1 → roundTrip v2 = some j2 → roundTrip v3 = some j3 →
      roundTrip v4 = some j4 → roundTrip v5 = some j5 →
      t1 ≤ t2 → t2 ≤ t3 → t3 ≤ t4 → t4 ≤ t5 → t5 < t1 + 1000 →
      (runBurst ⟨d0, true⟩
          [(t1, k1, v1), (t2, k2, v2), (t3, k3, v3), (t4, k4, v4), (t5, k5, v5)]).persists
          = [(t1, setKV d0 k1 j1),
             (t1 + 1000,
              setKV (setKV (setKV (setKV (setKV d0 k1 j1) k2 j2) k3 j3) k4 j4) k5 j5)]
        ∧ (runBurst ⟨d0, true⟩
            [(t1, k1, v1), (t2, k2, v2), (t3, k3, v3), (t4, k4, v4), (t5, k5, v5)]).persists.length
            = 2
        ∧ getKV (setKV (setKV (setKV (setKV (setKV d0 k1 j1) k2 j2) k3 j3) k4 j4) k5 j5) k5
            = some j5 := by
  intro d0 t1 t2 t3 t4 t5 k1 k2 k3 k4 k5 v1 v2 v3 v4 v5 j1 j2 j3 j4 j5
  intro hr1 hr2 hr3 hr4 hr5 h12 h23 h34 h45 h15
  have hn2 : ¬ (t1 + 1000 ≤ t2) := by omega
  have hn3 : ¬ (t1 + 1000 ≤ t3) := by omega
  have hn4 : ¬ (t1 + 1000 ≤ t4) := by omega
  have hn5 : ¬ (t1 + 1000 ≤ t5) := by omega
  have hmain :
      (runBurst ⟨d0, true⟩
          [(t1, k1, v1), (t2, k2, v2), (t3, k3, v3), (t4, k4, v4), (t5, k5, v5)]).persists
        = [(t1, setKV d0 k1 j1),
           (t1 + 1000,
            setKV (setKV (setKV (setKV (setKV d0 k1 j1) k2 j2) k3 j3) k4 j4) k5 j5)] := by
    rw [runBurst]
    rw [List.foldl_cons, burstSet_eq _ _ _ _ _ _ _ hr1, throttleCall_fresh]
    simp only [if_true]
    rw [List.foldl_cons, burstSet_eq _ _ _ _ _ _ _ hr2, throttleCall_absorb _ _ _ hn2]
    simp only [if_false, Bool.false_eq_true]
    rw [List.foldl_cons, burstSet_eq _ _ _ _ _ _ _ hr3, throttleCall_absorb _ _ _ hn3]
    simp only [if_false, Bool.false_eq_true]
    rw [List.foldl_cons, burstSet_eq _ _ _ _ _ _ _ hr4, throttleCall_absorb _ _ _ hn4]
    simp only [if_false, Bool.false_eq_true]
    rw [List.foldl_cons, burstSet_eq _ _ _ _ _ _ _ hr5, throttleCall_absorb _ _ _ hn5]
    simp only [if_false, Bool.false_eq_true]
    rw [List.foldl_nil]
    simp [burstFlush]
  refine ⟨hmain, ?_, getKV_setKV_self _ _ _⟩
  rw [hmain]
  rfl

/-- Witness for C7_thm: five sets of the key "k" at times 0..40 persist
exactly at the leading edge (time 0, value 1) and the trailing edge (time
1000, value 5). -/
theorem C7_witness :
    (runBurst ⟨[], true⟩
        [(0, "k", .vnum 1), (10, "k", .vnum 2), (20, "k", .vnum 3),
         (30, "k", .vnum 4), (40, "k", .vnum 5)]).persists
      = [(0, [("k", JValue.jnum 1)]), (1000, [("k", JValue.jnum 5)])] := by
  have h := C7_thm [] 0 10 20 30 40 "k" "k" "k" "k" "k"
    (.vnum 1) (.vnum 2) (.vnum 3) (.vnum 4) (.vnum 5)
    (.jnum 1) (.jnum 2) (.jnum 3) (.jnum 4) (.jnum 5)
    rfl rfl rfl rfl rfl
    (by omega) (by omega) (by omega) (by omega) (by omega)
  exact h.1

/-! Helper lemmas for the loader transition systems. -/

theorem getKV_setKV {κ α : Type} [DecidableEq κ] (l : List (κ × α)) (k k' : κ) (v : α) :
    getKV (setKV l k v) k' = if k' = k then some v else getKV l k' := by
  by_cases h : k' = k
  · rw [if_pos h, h, getKV_setKV_self]
  · rw [if_neg h, getKV_setKV_other _ _ _ _ h]

theorem getKV_isSome_setKV_mono {κ α : Type} [DecidableEq κ] (l : List (κ × α)) (k k' : κ)
    (v : α) (h : (getKV l k').isSome = true) : (getKV (setKV l k v) k').isSome = true := by
  rw [getKV_setKV]
  by_cases he : k' = k
  · simp [he]
  · simp [he, h]

theorem mem_of_getKV {κ α : Type} [DecidableEq κ] (l : List (κ × α)) (k : κ) (v : α)
    (h : getKV l k = some v) : (k, v) ∈ l := by
  induction l with
  | nil => simp [getKV] at h
  | cons hd tl ih =>
      obtain ⟨k0, v0⟩ := hd
      by_cases he : k0 = k
      · subst he
        simp [getKV] at h
        simp [h]
      · simp [getKV, he] at h
        simp [ih h]

theorem mem_setKV {κ α : Type} [DecidableEq κ] (l : List (κ × α)) (k : κ) (v : α)
    (p : κ × α) (h : p ∈ setKV l k v) : p = (k, v) ∨ p ∈ l := by
  induction l with
  | nil =>
      simp [setKV] at h
      simp [h]
  | cons hd tl ih =>
      obtain ⟨k0, v0⟩ := hd
      by_cases he : k0 = k
      · subst he
        simp [setKV] at h
        rcases h with h | h
        · simp [h]
        · simp [h]
      · simp [setKV, he] at h
        rcases h with h | h
        · simp [h]
        · rcases ih h with h2 | h2
          · simp [h2]
          · simp [h2]

theorem cacheInv_hit {π : Type} (fetches : List String) (promises : List (String × π))
    (loadLog : List (String × π)) (key : String) (p : π)
    (hInv : CacheInv fetches promises loadLog) (hget : getKV promises key = some p) :
    CacheInv fetches promises (loadLog ++ [(key, p)]) := by
  obtain ⟨h1, h2, h3⟩ := hInv
  refine ⟨h1, h2, ?_⟩
  intro k r hmem
  rcases List.mem_append.mp hmem with hm | hm
  · exact h3 k r hm
  · simp at hm
    rw [hm.1, hm.2]
    exact hget

theorem cacheInv_miss_fetch {π : Type} (fetches : List String)
    (promises : List (String × π)) (loadLog : List (String × π)) (key : String) (p : π)
    (hInv : CacheInv fetches promises loadLog) (hget : getKV promises key = none) :
    CacheInv (fetches ++ [key]) (setKV promises key p) (loadLog ++ [(key, p)]) := by
  obtain ⟨h1, h2, h3⟩ := hInv
  have hkey : key ∉ fetches := by
    intro hmem
    have := h2 key hmem
    rw [hget] at this
    simp at this
  refine ⟨?_, ?_, ?_⟩
  · rw [List.nodup_append]
    exact ⟨h1, List.nodup_singleton key, by
      intro a ha hb
      simp at hb
      rw [hb] at ha
      exact hkey ha⟩
  · intro k hmem
    rcases List.mem_append.mp hmem with hm | hm
    · exact getKV_isSome_setKV_mono _ _ _ _ (h2 k hm)
    · simp at hm
      rw [hm, getKV_setKV_self]
      rfl
  · intro k r hmem
    rcases List.mem_append.mp hmem with hm | hm
    · have hold := h3 k r hm
      have hne : k ≠ key := by
        intro he
        rw [he, hget] at hold
        cases hold
      rw [getKV_setKV_other _ _ _ _ hne]
      exact hold
    · simp at hm
      rw [hm.1, hm.2, getKV_setKV_self]

theorem cacheInv_miss_nofetch {π : Type} (fetches : List String)
    (promises : List (String × π)) (loadLog : List (String × π)) (key : String) (p : π)
    (hInv : CacheInv fetches promises loadLog) (hget : getKV promises key = none) :
    CacheInv fetches (setKV promises key p) (loadLog ++ [(key, p)]) := by
  obtain ⟨h1, h2, h3⟩ := hInv
  refine ⟨h1, ?_, ?_⟩
  · intro k hmem
    exact getKV_isSome_setKV_mono _ _ _ _ (h2 k hmem)
  · intro k r hmem
    rcases List.mem_append.mp hmem with hm | hm
    · have hold := h3 k r hm
      have hne : k ≠ key := by
        intro he
        rw [he, hget] at hold
        cases hold
      rw [getKV_setKV_other _ _ _ _ hne]
      exact hold
    · simp at hm
      rw [hm.1, hm.2, getKV_setKV_self]

/-! Cache-coherence preservation for the server loader. -/

theorem serverLoadNow_cache (st : ServerState) (t u : String) (h : serverCacheOK st) :
    serverCacheOK (serverLoadNow st t u).1 := by
  unfold serverCacheOK at *
  cases hget : getKV st.promises (t ++ "/" ++ u) with
  | some p =>
      simp only [serverLoadNow, hget]
      exact cacheInv_hit _ _ _ _ _ h hget
  | none =>
      simp only [serverLoadNow, hget]
      split
      · exact cacheInv_miss_fetch _ _ _ _ _ h hget
      · split
        · exact cacheInv_miss_nofetch _ _ _ _ _ h hget
        · split
          · exact cacheInv_miss_nofetch _ _ _ _ _ h hget
          · exact cacheInv_miss_nofetch _ _ _ _ _ h hget

theorem serverLoadMany_cache :
    ∀ (items : List (String × String)) (st : ServerState), serverCacheOK st →
      serverCacheOK (serverLoadMany st items).1 := by
  intro items
  induction items with
  | nil =>
      intro st h
      simpa [serverLoadMany] using h
  | cons hd tl ih =>
      obtain ⟨t, u⟩ := hd
      intro st h
      rcases hsl : serverLoadNow st t u with ⟨st1, r⟩
      rcases hsm : serverLoadMany st1 tl with ⟨st2, rs⟩
      simp only [serverLoadMany, hsl, hsm]
      have h1 : serverCacheOK st1 := by
        have := serverLoadNow_cache st t u h
        rwa [hsl] at this
      have := ih st1 h1
      rwa [hsm] at this

theorem serverCheckBarrier_cache (st : ServerState) (h : serverCacheOK st) :
    serverCacheOK (serverCheckBarrier st) := by
  unfold serverCheckBarrier
  split
  · exact h
  · exact h

theorem serverSettle_cache (st : ServerState) (pid : Nat) (res : Except String Unit)
    (h : serverCacheOK st) : serverCacheOK (serverSettle st pid res) := by
  unfold serverSettle
  cases hg : getKV st.proms pid with
  | none => exact h
  | some ps =>
      cases ps with
      | pending =>
          cases res with
          | ok v => exact serverCheckBarrier_cache _ h
          | error m => exact serverCheckBarrier_cache _ h
      | fulfilled => exact h
      | rejectedWith m => exact h

theorem serverStep_cache (st st2 : ServerState) (op : SOp) (h : serverCacheOK st)
    (hs : serverStep st op = some st2) : serverCacheOK st2 := by
  cases op with
  | preload t u =>
      simp only [serverStep] at hs
      cases hs
      exact h
  | execPreload =>
      simp only [serverStep, serverExecPreload] at hs
      by_cases hp : st.preloaderActive = true
      · simp [hp] at hs
      · simp only [hp] at hs
        simp at hs
        rcases hsm : serverLoadMany st st.preloadItems with ⟨st1, rets⟩
        rw [hsm] at hs
        simp at hs
        have h1 : serverCacheOK st1 := by
          have := serverLoadMany_cache st.preloadItems st h
          rwa [hsm] at this
        rw [← hs]
        exact serverCheckBarrier_cache _ h1
  | load t u =>
      simp only [serverStep] at hs
      cases hs
      exact serverLoadNow_cache st t u h
  | settle pid res =>
      simp only [serverStep] at hs
      cases hs
      exact serverSettle_cache st pid res h

theorem runServer_cache_aux :
    ∀ (ops : List SOp) (st0 st : ServerState), serverCacheOK st0 →
      List.foldlM serverStep st0 ops = some st → serverCacheOK st := by
  intro ops
  induction ops with
  | nil =>
      intro st0 st h hf
      simp [List.foldlM] at hf
      rw [← hf]
      exact h
  | cons op ops ih =>
      intro st0 st h hf
      simp only [List.foldlM] at hf
      cases hstep : serverStep st0 op with
      | none => rw [hstep] at hf; cases hf
      | some st1 =>
          rw [hstep] at hf
          exact ih st1 st (serverStep_cache st0 st1 op h hstep) hf

theorem serverInit_cache : serverCacheOK serverInit := by
  refine ⟨List.nodup_nil, ?_, ?_⟩
  · intro k h
    simp [serverInit] at h
  · intro k r h
    simp [serverInit] at h

theorem runServer_cache (ops : List SOp) (st : ServerState)
    (h : runServer ops = some st) : serverCacheOK st :=
  runServer_cache_aux ops serverInit st serverInit_cache h

/-! Cache-coherence preservation for the client loader. -/

theorem clientLoadNow_cache (st : ClientState) (t u : String) (h : clientCacheOK st) :
    clientCacheOK (clientLoadNow st t u).1 := by
  unfold clientCacheOK at *
  cases hget : getKV st.promises (t ++ "/" ++ u) with
  | some p =>
      simp only [clientLoadNow, hget]
      exact cacheInv_hit _ _ _ _ _ h hget
  | none =>
      simp only [clientLoadNow, hget]
      exact cacheInv_miss_fetch _ _ _ _ _ h hget

theorem clientLoadMany_cache :
    ∀ (items : List (String × String)) (st : ClientState), clientCacheOK st →
      clientCacheOK (clientLoadMany st items).1 := by
  intro items
  induction items with
  | nil =>
      intro st h
      simpa [clientLoadMany] using h
  | cons hd tl ih =>
      obtain ⟨t, u⟩ := hd
      intro st h
      rcases hsl : clientLoadNow st t u with ⟨st1, r⟩
      rcases hsm : clientLoadMany st1 tl with ⟨st2, rs⟩
      simp only [clientLoadMany, hsl, hsm]
      have h1 : clientCacheOK st1 := by
        have := clientLoadNow_cache st t u h
        rwa [hsl] at this
      have := ih st1 h1
      rwa [hsm] at this

theorem clientRunQueued_cache :
    ∀ (q : List (String × String)) (st : ClientState), clientCacheOK st →
      clientCacheOK (clientRunQueued st q) := by
  intro q
  induction q with
  | nil =>
      intro st h
      simpa [clientRunQueued] using h
  | cons hd tl ih =>
      obtain ⟨t, u⟩ := hd
      intro st h
      simp only [clientRunQueued]
      exact ih _ (clientLoadNow_cache st t u h)

theorem clientCheckBarrier_cache (st : ClientState) (h : clientCacheOK st) :
    clientCacheOK (clientCheckBarrier st) := by
  unfold clientCheckBarrier
  split
  · exact clientRunQueued_cache _ _ h
  · exact h

theorem clientSettle_cache (st : ClientState) (pid : Nat) (res : Except String Unit)
    (h : clientCacheOK st) : clientCacheOK (clientSettle st pid res) := by
  unfold clientSettle
  cases hg : getKV st.proms pid with
  | none => exact h
  | some ps =>
      cases ps with
      | pending =>
          cases res with
          | ok v => exact clientCheckBarrier_cache _ h
          | error m => exact clientCheckBarrier_cache _ h
      | fulfilled => exact h
      | rejectedWith m => exact h

theorem clientStep_cache (st st2 : ClientState) (op : COp) (h : clientCacheOK st)
    (hs : clientStep st op = some st2) : clientCacheOK st2 := by
  cases op with
  | preload t u =>
      simp only [clientStep] at hs
      cases hs
      exact h
  | execPreload =>
      simp only [clientStep, clientExecPreload] at hs
      by_cases hp : st.preloaderActive = true
      · simp [hp] at hs
      · simp only [hp] at hs
        simp at hs
        rcases hsm : clientLoadMany st st.preloadItems with ⟨st1, rets⟩
        rw [hsm] at hs
        simp at hs
        have h1 : clientCacheOK st1 := by
          have := clientLoadMany_cache st.preloadItems st h
          rwa [hsm] at this
        rw [← hs]
        exact clientCheckBarrier_cache _ h1
  | load t u =>
      simp only [clientStep] at hs
      by_cases hp : st.preloaderActive = true
      · simp only [hp, if_true] at hs
        cases hs
        exact h
      · simp only [hp] at hs
        simp at hs
        rw [← hs]
        exact clientLoadNow_cache st t u h
  | settle pid res =>
      simp only [clientStep] at hs
      cases hs
      exact clientSettle_cache st pid res h

theorem runClient_cache_aux :
    ∀ (ops : List COp) (st0 st : ClientState), clientCacheOK st0 →
      List.foldlM clientStep st0 ops = some st → clientCacheOK st := by
  intro ops
  induction ops with
  | nil =>
      intro st0 st h hf
      simp [List.foldlM] at hf
      rw [← hf]
      exact h
  | cons op ops ih =>
      intro st0 st h hf
      simp only [List.foldlM] at hf
      cases hstep : clientStep st0 op with
      | none => rw [hstep] at hf; cases hf
      | some st1 =>
          rw [hstep] at hf
          exact ih st1 st (clientStep_cache st0 st1 op h hstep) hf

theorem clientInit_cache : clientCacheOK clientInit := by
  refine ⟨List.nodup_nil, ?_, ?_⟩
  · intro k h
    simp [clientInit] at h
  · intro k r h
    simp [clientInit] at h

theorem runClient_cache (ops : List COp) (st : ClientState)
    (h : runClient ops = some st) : clientCacheOK st :=
  runClient_cache_aux ops clientInit st clientInit_cache h

/-- Claim C2: in both loader variants, at most one fetch+parse pipeline is
ever started per cache key over any event trace; every value returned by a
`load` call is exactly the cached entry of its key, so all callers of one key
receive the identical promise; the in-flight promise is recorded in the cache
synchronously, within the same atomic segment that created it; and since a
settled (also a rejected) promise never leaves the cache, no later lookup
re-triggers a fetch. -/
theorem C2_thm :
    (∀ (ops : List SOp) (st : ServerState), runServer ops = some st →
        (∀ k, st.fetches.count k ≤ 1)
        ∧ (∀ k r1 r2, (k, r1) ∈ st.loadLog → (k, r2) ∈ st.loadLog → r1 = r2))
    ∧ (∀ (st : ServerState) (t u : String),
        getKV st.promises (t ++ "/" ++ u) = none →
        getKV ((serverLoadNow st t u).1).promises (t ++ "/" ++ u)
          = some (serverLoadNow st t u).2)
    ∧ (∀ (ops : List COp) (st : ClientState), runClient ops = some st →
        (∀ k, st.fetches.count k ≤ 1)
        ∧ (∀ k r1 r2, (k, r1) ∈ st.loadLog → (k, r2) ∈ st.loadLog → r1 = r2))
    ∧ (∀ (st : ClientState) (t u : String),
        getKV st.promises (t ++ "/" ++ u) = none →
        getKV ((clientLoadNow st t u).1).promises (t ++ "/" ++ u)
          = some (clientLoadNow st t u).2
        ∧ ((clientLoadNow st t u).1).fetches = st.fetches ++ [t ++ "/" ++ u]) := by
  refine ⟨?_, ?_, ?_, ?_⟩
  · intro ops st h
    obtain ⟨h1, h2, h3⟩ := runServer_cache ops st h
    constructor
    · intro k
      exact List.nodup_iff_count_le_one.mp h1 k
    · intro k r1 r2 hm1 hm2
      have e1 := h3 k r1 hm1
      have e2 := h3 k r2 hm2
      rw [e1] at e2
      exact (Option.some.injEq _ _).mp e2
  · intro st t u hget
    simp only [serverLoadNow, hget]
    split
    · exact getKV_setKV_self _ _ _
    · split
      · exact getKV_setKV_self _ _ _
      · split
        · exact getKV_setKV_self _ _ _
        · exact getKV_setKV_self _ _ _
  · intro ops st h
    obtain ⟨h1, h2, h3⟩ := runClient_cache ops st h
    constructor
    · intro k
      exact List.nodup_iff_count_le_one.mp h1 k
    · intro k r1 r2 hm1 hm2
      have e1 := h3 k r1 hm1
      have e2 := h3 k r2 hm2
      rw [e1] at e2
      exact (Option.some.injEq _ _).mp e2
  · intro st t u hget
    simp only [clientLoadNow, hget]
    constructor
    · exact getKV_setKV_self _ _ _
    · simp

/-- Witness for C2_thm: a trace that loads the same model key twice, sees the
fetch fail, and loads again — the pipeline ran once, all three calls got the
same promise, and the rejected token stayed cached. -/
theorem C2_witness :
    (List.count "model/u"
        (ServerState.fetches
          ⟨[("model/u", some 0)], [], [(0, PromState.rejectedWith (some "boom"))],
           [(0, "model/u")], ["model/u"], [], false, [], false,
           [("model/u", some 0), ("model/u", some 0), ("model/u", some 0)], 1⟩) ≤ 1)
      ∧ getKV ((serverLoadNow serverInit "model" "u").1).promises "model/u"
          = some (serverLoadNow serverInit "model" "u").2
      ∧ getKV ((clientLoadNow clientInit "model" "u").1).promises "model/u"
          = some (clientLoadNow clientInit "model" "u").2 := by
  refine ⟨?_, ?_, ?_⟩
  · exact (C2_thm.1
      [SOp.load "model" "u", SOp.load "model" "u",
       SOp.settle 0 (.error "boom"), SOp.load "model" "u"]
      ⟨[("model/u", some 0)], [], [(0, PromState.rejectedWith (some "boom"))],
       [(0, "model/u")], ["model/u"], [], false, [], false,
       [("model/u", some 0), ("model/u", some 0), ("model/u", some 0)], 1⟩
      (by rfl)).1 "model/u"
  · exact C2_thm.2.1 serverInit "model" "u" rfl
  · exact (C2_thm.2.2.2 clientInit "model" "u" rfl).1

/-! Barrier-soundness preservation for the server loader. -/

theorem isSettled_setKV_ne (proms : List (Nat × PromState)) (pid q : Nat) (v : PromState)
    (h : pid ≠ q) : isSettled (setKV proms q v) pid = isSettled proms pid := by
  unfold isSettled
  rw [getKV_setKV]
  simp [h]

theorem allSettledB_mono (proms proms2 : List (Nat × PromState))
    (batch : List (Option Nat))
    (h : ∀ pid, some pid ∈ batch → isSettled proms pid = true → isSettled proms2 pid = true) :
    allSettledB proms batch = true → allSettledB proms2 batch = true := by
  induction batch with
  | nil => intro _; rfl
  | cons e rest ih =>
      intro hall
      cases e with
      | none =>
          simp only [allSettledB] at hall ⊢
          exact ih (fun pid hm => h pid (by simp [hm])) hall
      | some pid =>
          simp only [allSettledB, Bool.and_eq_true] at hall ⊢
          exact ⟨h pid (by simp) hall.1, ih (fun q hm => h q (by simp [hm])) hall.2⟩

theorem barrier_core_insert
    (proms : List (Nat × PromState)) (promises : List (String × Option Nat))
    (batch : List (Option Nat)) (fired : Bool) (nid : Nat) (key : String) (v : PromState)
    (h1 : ∀ p ps, (p, ps) ∈ proms → p < nid)
    (h2 : ∀ k pid, getKV promises k = some (some pid) → (getKV proms pid).isSome = true)
    (h3 : ∀ e, e ∈ batch → ∀ pid, e = some pid → (getKV proms pid).isSome = true)
    (h4 : fired = true → allSettledB proms batch = true) :
    (∀ p ps, (p, ps) ∈ setKV proms nid v → p < nid + 1)
    ∧ (∀ k pid, getKV (setKV promises key (some nid)) k = some (some pid) →
        (getKV (setKV proms nid v) pid).isSome = true)
    ∧ (∀ e, e ∈ batch → ∀ pid, e = some pid → (getKV (setKV proms nid v) pid).isSome = true)
    ∧ (fired = true → allSettledB (setKV proms nid v) batch = true) := by
  have hfresh : ∀ pid, (getKV proms pid).isSome = true → pid < nid := by
    intro pid hsome
    cases hg : getKV proms pid with
    | none => rw [hg] at hsome; cases hsome
    | some ps => exact h1 pid ps (mem_of_getKV _ _ _ hg)
  refine ⟨?_, ?_, ?_, ?_⟩
  · intro p ps hm
    rcases mem_setKV _ _ _ _ hm with he | hm2
    · cases he
      omega
    · have := h1 p ps hm2
      omega
  · intro k pid hg
    rw [getKV_setKV] at hg
    by_cases he : k = key
    · rw [if_pos he] at hg
      have hpe : pid = nid := by
        injection hg with hg2
        injection hg2 with hg3
        exact hg3.symm
      rw [hpe, getKV_setKV_self]
      rfl
    · rw [if_neg he] at hg
      exact getKV_isSome_setKV_mono _ _ _ _ (h2 k pid hg)
  · intro e hm pid he
    exact getKV_isSome_setKV_mono _ _ _ _ (h3 e hm pid he)
  · intro hf
    refine allSettledB_mono proms _ batch ?_ (h4 hf)
    intro pid hm hset
    have hsome := h3 (some pid) hm pid rfl
    have hlt := hfresh pid hsome
    rw [isSettled_setKV_ne proms pid nid v (by omega)]
    exact hset

theorem serverLoadNow_barrier (st : ServerState) (t u : String) (h : BarrierInvS st) :
    BarrierInvS (serverLoadNow st t u).1
    ∧ (∀ pid, (serverLoadNow st t u).2 = some pid →
        (getKV ((serverLoadNow st t u).1).proms pid).isSome = true) := by
  obtain ⟨h1, h2, h3, h4⟩ := h
  cases hget : getKV st.promises (t ++ "/" ++ u) with
  | some p =>
      simp only [serverLoadNow, hget]
      refine ⟨⟨h1, h2, h3, h4⟩, ?_⟩
      intro pid hp
      rw [hp] at hget
      exact h2 _ pid hget
  | none =>
      simp only [serverLoadNow, hget]
      split
      · have hc := barrier_core_insert st.proms st.promises st.batchPids st.fired
          st.nextId (t ++ "/" ++ u) .pending h1 h2 h3 h4
        refine ⟨⟨hc.1, hc.2.1, hc.2.2.1, hc.2.2.2⟩, ?_⟩
        intro pid hp
        injection hp with hp2
        rw [← hp2, getKV_setKV_self]
        rfl
      · split
        · have hc := barrier_core_insert st.proms st.promises st.batchPids st.fired
            st.nextId (t ++ "/" ++ u) .fulfilled h1 h2 h3 h4
          refine ⟨⟨hc.1, hc.2.1, hc.2.2.1, hc.2.2.2⟩, ?_⟩
          intro pid hp
          injection hp with hp2
          rw [← hp2, getKV_setKV_self]
          rfl
        · split
          · have hc := barrier_core_insert st.proms st.promises st.batchPids st.fired
              st.nextId (t ++ "/" ++ u) (.rejectedWith none) h1 h2 h3 h4
            refine ⟨⟨hc.1, hc.2.1, hc.2.2.1, hc.2.2.2⟩, ?_⟩
            intro pid hp
            injection hp with hp2
            rw [← hp2, getKV_setKV_self]
            rfl
          · refine ⟨⟨h1, ?_, h3, h4⟩, ?_⟩
            · intro k pid hg
              rw [getKV_setKV] at hg
              by_cases he : k = t ++ "/" ++ u
              · rw [if_pos he] at hg
                injection hg with hg2
                cases hg2
              · rw [if_neg he] at hg
                exact h2 k pid hg
            · intro pid hp
              cases hp

theorem serverLoadNow_proms_mono (st : ServerState) (t u : String) (q : Nat)
    (h : (getKV st.proms q).isSome = true) :
    (getKV ((serverLoadNow st t u).1).proms q).isSome = true := by
  cases hget : getKV st.promises (t ++ "/" ++ u) with
  | some p =>
      simp only [serverLoadNow, hget]
      exact h
  | none =>
      simp only [serverLoadNow, hget]
      split
      · exact getKV_isSome_setKV_mono _ _ _ _ h
      · split
        · exact getKV_isSome_setKV_mono _ _ _ _ h
        · split
          · exact getKV_isSome_setKV_mono _ _ _ _ h
          · exact h

theorem serverLoadMany_barrier :
    ∀ (items : List (String × String)) (st : ServerState), BarrierInvS st →
      BarrierInvS (serverLoadMany st items).1
      ∧ (∀ e, e ∈ (serverLoadMany st items).2 → ∀ pid, e = some pid →
          (getKV ((serverLoadMany st items).1).proms pid).isSome = true) := by
  intro items
  induction items with
  | nil =>
      intro st h
      refine ⟨by simpa [serverLoadMany] using h, ?_⟩
      intro e he
      simp [serverLoadMany] at he
  | cons hd tl ih =>
      obtain ⟨t, u⟩ := hd
      intro st h
      rcases hsl : serverLoadNow st t u with ⟨st1, r⟩
      rcases hsm : serverLoadMany st1 tl with ⟨st2, rs⟩
      have hnow := serverLoadNow_barrier st t u h
      rw [hsl] at hnow
      have hrest := ih st1 hnow.1
      rw [hsm] at hrest
      simp only [serverLoadMany, hsl, hsm]
      refine ⟨hrest.1, ?_⟩
      intro e he pid hpe
      rcases List.mem_cons.mp he with he2 | he2
      · rw [he2] at hpe
        have hq := hnow.2 pid (by rw [hpe])
        have hmono : ∀ (items2 : List (String × String)) (stA : ServerState) (q : Nat),
            (getKV stA.proms q).isSome = true →
            (getKV ((serverLoadMany stA items2).1).proms q).isSome = true := by
          intro items2
          induction items2 with
          | nil => intro stA q hq2; simpa [serverLoadMany] using hq2
          | cons hd2 tl2 ih2 =>
              obtain ⟨t2, u2⟩ := hd2
              intro stA q hq2
              rcases hsl2 : serverLoadNow stA t2 u2 with ⟨stB, r2⟩
              simp only [serverLoadMany, hsl2]
              rcases hsm2 : serverLoadMany stB tl2 with ⟨stC, rs2⟩
              simp only []
              have := serverLoadNow_proms_mono stA t2 u2 q hq2
              rw [hsl2] at this
              have := ih2 stB q this
              rwa [hsm2] at this
        have := hmono tl st1 pid hq
        rwa [hsm] at this
      · exact hrest.2 e he2 pid hpe

theorem serverCheckBarrier_barrier (st : ServerState) (h : BarrierInvS st) :
    BarrierInvS (serverCheckBarrier st) := by
  obtain ⟨h1, h2, h3, h4⟩ := h
  unfold serverCheckBarrier
  split
  · next hcond =>
      refine ⟨h1, h2, h3, ?_⟩
      intro _
      exact (Bool.and_eq_true _ _ |>.mp hcond).2
  · exact ⟨h1, h2, h3, h4⟩

theorem serverSettle_barrier (st : ServerState) (pid : Nat) (res : Except String Unit)
    (h : BarrierInvS st) : BarrierInvS (serverSettle st pid res) := by
  obtain ⟨h1, h2, h3, h4⟩ := h
  unfold serverSettle
  cases hg : getKV st.proms pid with
  | none => exact ⟨h1, h2, h3, h4⟩
  | some ps =>
      cases ps with
      | pending =>
          have hcore : ∀ v : PromState,
              BarrierInvS { st with
                proms := setKV st.proms pid v
                results := match getKV st.pidKey pid with
                  | some key => setKV st.results key pid
                  | none => st.results } := by
            intro v
            refine ⟨?_, ?_, ?_, ?_⟩
            · intro p ps2 hm
              rcases mem_setKV _ _ _ _ hm with he | hm2
              · cases he
                exact h1 pid .pending (mem_of_getKV _ _ _ hg)
              · exact h1 p ps2 hm2
            · intro k q hgq
              exact getKV_isSome_setKV_mono _ _ _ _ (h2 k q hgq)
            · intro e he q hqe
              exact getKV_isSome_setKV_mono _ _ _ _ (h3 e he q hqe)
            · intro hf
              refine allSettledB_mono st.proms _ st.batchPids ?_ (h4 hf)
              intro q hm hset
              by_cases hqp : q = pid
              · rw [hqp] at hset
                unfold isSettled at hset
                rw [hg] at hset
                cases hset
              · rw [isSettled_setKV_ne st.proms q pid v hqp]
                exact hset
          have hcore2 : ∀ v : PromState,
              BarrierInvS { st with proms := setKV st.proms pid v } := by
            intro v
            refine ⟨?_, ?_, ?_, ?_⟩
            · intro p ps2 hm
              rcases mem_setKV _ _ _ _ hm with he | hm2
              · cases he
                exact h1 pid .pending (mem_of_getKV _ _ _ hg)
              · exact h1 p ps2 hm2
            · intro k q hgq
              exact getKV_isSome_setKV_mono _ _ _ _ (h2 k q hgq)
            · intro e he q hqe
              exact getKV_isSome_setKV_mono _ _ _ _ (h3 e he q hqe)
            · intro hf
              refine allSettledB_mono st.proms _ st.batchPids ?_ (h4 hf)
              intro q hm hset
              by_cases hqp : q = pid
              · rw [hqp] at hset
                unfold isSettled at hset
                rw [hg] at hset
                cases hset
              · rw [isSettled_setKV_ne st.proms q pid v hqp]
                exact hset
          cases res with
          | ok v => exact serverCheckBarrier_barrier _ (hcore .fulfilled)
          | error m => exact serverCheckBarrier_barrier _ (hcore2 (.rejectedWith (some m)))
      | fulfilled => exact ⟨h1, h2, h3, h4⟩
      | rejectedWith m => exact ⟨h1, h2, h3, h4⟩

theorem serverStep_barrier (st st2 : ServerState) (op : SOp) (h : BarrierInvS st)
    (hs : serverStep st op = some st2) : BarrierInvS st2 := by
  obtain ⟨h1, h2, h3, h4⟩ := h
  cases op with
  | preload t u =>
      simp only [serverStep] at hs
      cases hs
      exact ⟨h1, h2, h3, h4⟩
  | execPreload =>
      simp only [serverStep, serverExecPreload] at hs
      by_cases hp : st.preloaderActive = true
      · simp [hp] at hs
      · simp only [hp] at hs
        simp at hs
        rcases hsm : serverLoadMany st st.preloadItems with ⟨st1, rets⟩
        rw [hsm] at hs
        simp at hs
        have hmany := serverLoadMany_barrier st.preloadItems st ⟨h1, h2, h3, h4⟩
        rw [hsm] at hmany
        obtain ⟨⟨g1, g2, g3, g4⟩, gret⟩ := hmany
        rw [← hs]
        apply serverCheckBarrier_barrier
        exact ⟨g1, g2, gret, by intro hf; cases hf⟩
  | load t u =>
      simp only [serverStep] at hs
      cases hs
      exact (serverLoadNow_barrier st t u ⟨h1, h2, h3, h4⟩).1
  | settle pid res =>
      simp only [serverStep] at hs
      cases hs
      exact serverSettle_barrier st pid res ⟨h1, h2, h3, h4⟩

theorem runServer_barrier_aux :
    ∀ (ops : List SOp) (st0 st : ServerState), BarrierInvS st0 →
      List.foldlM serverStep st0 ops = some st → BarrierInvS st := by
  intro ops
  induction ops with
  | nil =>
      intro st0 st h hf
      simp [List.foldlM] at hf
      rw [← hf]
      exact h
  | cons op ops ih =>
      intro st0 st h hf
      simp only [List.foldlM] at hf
      cases hstep : serverStep st0 op with
      | none => rw [hstep] at hf; cases hf
      | some st1 =>
          rw [hstep] at hf
          exact ih st1 st (serverStep_barrier st0 st1 op h hstep) hf

theorem serverInit_barrier : BarrierInvS serverInit := by
  refine ⟨?_, ?_, ?_, ?_⟩
  · intro p ps h
    simp [serverInit] at h
  · intro k pid h
    simp [serverInit, getKV] at h
  · intro e h
    simp [serverInit] at h
  · intro h
    rfl

theorem runServer_barrier (ops : List SOp) (st : ServerState)
    (h : runServer ops = some st) : BarrierInvS st :=
  runServer_barrier_aux ops serverInit st serverInit_barrier h

/-! Barrier-soundness preservation for the client loader. -/

theorem barrier_core_insertC
    (proms : List (Nat × PromState)) (promises : List (String × Nat))
    (batch : List (Option Nat)) (fired : Bool) (nid : Nat) (key : String) (v : PromState)
    (h1 : ∀ p ps, (p, ps) ∈ proms → p < nid)
    (h2 : ∀ k pid, getKV promises k = some pid → (getKV proms pid).isSome = true)
    (h3 : ∀ e, e ∈ batch → ∀ pid, e = some pid → (getKV proms pid).isSome = true)
    (h4 : fired = true → allSettledB proms batch = true) :
    (∀ p ps, (p, ps) ∈ setKV proms nid v → p < nid + 1)
    ∧ (∀ k pid, getKV (setKV promises key nid) k = some pid →
        (getKV (setKV proms nid v) pid).isSome = true)
    ∧ (∀ e, e ∈ batch → ∀ pid, e = some pid → (getKV (setKV proms nid v) pid).isSome = true)
    ∧ (fired = true → allSettledB (setKV proms nid v) batch = true) := by
  have hfresh : ∀ pid, (getKV proms pid).isSome = true → pid < nid := by
    intro pid hsome
    cases hg : getKV proms pid with
    | none => rw [hg] at hsome; cases hsome
    | some ps => exact h1 pid ps (mem_of_getKV _ _ _ hg)
  refine ⟨?_, ?_, ?_, ?_⟩
  · intro p ps hm
    rcases mem_setKV _ _ _ _ hm with he | hm2
    · cases he
      omega
    · have := h1 p ps hm2
      omega
  · intro k pid hg
    rw [getKV_setKV] at hg
    by_cases he : k = key
    · rw [if_pos he] at hg
      have hpe : pid = nid := by
        injection hg with hg2
        exact hg2.symm
      rw [hpe, getKV_setKV_self]
      rfl
    · rw [if_neg he] at hg
      exact getKV_isSome_setKV_mono _ _ _ _ (h2 k pid hg)
  · intro e hm pid he
    exact getKV_isSome_setKV_mono _ _ _ _ (h3 e hm pid he)
  · intro hf
    refine allSettledB_mono proms _ batch ?_ (h4 hf)
    intro pid hm hset
    have hsome := h3 (some pid) hm pid rfl
    have hlt := hfresh pid hsome
    rw [isSettled_setKV_ne proms pid nid v (by omega)]
    exact hset

theorem clientLoadNow_barrier (st : ClientState) (t u : String) (h : BarrierInvC st) :
    BarrierInvC (clientLoadNow st t u).1 := by
  obtain ⟨h1, h2, h3, h4⟩ := h
  cases hget : getKV st.promises (t ++ "/" ++ u) with
  | some p =>
      simp only [clientLoadNow, hget]
      exact ⟨h1, h2, h3, h4⟩
  | none =>
      simp only [clientLoadNow, hget]
      have hc := barrier_core_insertC st.proms st.promises st.batchPids st.fired
        st.nextId (t ++ "/" ++ u) .pending h1 h2 h3 h4
      exact ⟨hc.1, hc.2.1, hc.2.2.1, hc.2.2.2⟩

theorem clientLoadNow_proms_mono (st : ClientState) (t u : String) (q : Nat)
    (h : (getKV st.proms q).isSome = true) :
    (getKV ((clientLoadNow st t u).1).proms q).isSome = true := by
  cases hget : getKV st.promises (t ++ "/" ++ u) with
  | some p =>
      simp only [clientLoadNow, hget]
      exact h
  | none =>
      simp only [clientLoadNow, hget]
      exact getKV_isSome_setKV_mono _ _ _ _ h

theorem clientLoadNow_ret (st : ClientState) (t u : String) (h : BarrierInvC st) :
    (getKV ((clientLoadNow st t u).1).proms (clientLoadNow st t u).2).isSome = true := by
  obtain ⟨h1, h2, h3, h4⟩ := h
  cases hget : getKV st.promises (t ++ "/" ++ u) with
  | some p =>
      simp only [clientLoadNow, hget]
      exact h2 _ p hget
  | none =>
      simp only [clientLoadNow, hget]
      rw [getKV_setKV_self]
      rfl

theorem clientLoadMany_barrier :
    ∀ (items : List (String × String)) (st : ClientState), BarrierInvC st →
      BarrierInvC (clientLoadMany st items).1
      ∧ (∀ e, e ∈ (clientLoadMany st items).2 → ∀ pid, e = some pid →
          (getKV ((clientLoadMany st items).1).proms pid).isSome = true) := by
  intro items
  induction items with
  | nil =>
      intro st h
      refine ⟨by simpa [clientLoadMany] using h, ?_⟩
      intro e he
      simp [clientLoadMany] at he
  | cons hd tl ih =>
      obtain ⟨t, u⟩ := hd
      intro st h
      rcases hsl : clientLoadNow st t u with ⟨st1, r⟩
      rcases hsm : clientLoadMany st1 tl with ⟨st2, rs⟩
      have hnow : BarrierInvC st1 := by
        have := clientLoadNow_barrier st t u h
        rwa [hsl] at this
      have hret : (getKV st1.proms r).isSome = true := by
        have := clientLoadNow_ret st t u h
        rwa [hsl] at this
      have hrest := ih st1 hnow
      rw [hsm] at hrest
      simp only [clientLoadMany, hsl, hsm]
      refine ⟨hrest.1, ?_⟩
      intro e he pid hpe
      rcases List.mem_cons.mp he with he2 | he2
      · rw [he2] at hpe
        injection hpe with hpe2
        have hmono : ∀ (items2 : List (String × String)) (stA : ClientState) (q : Nat),
            (getKV stA.proms q).isSome = true →
            (getKV ((clientLoadMany stA items2).1).proms q).isSome = true := by
          intro items2
          induction items2 with
          | nil => intro stA q hq2; simpa [clientLoadMany] using hq2
          | cons hd2 tl2 ih2 =>
              obtain ⟨t2, u2⟩ := hd2
              intro stA q hq2
              rcases hsl2 : clientLoadNow stA t2 u2 with ⟨stB, r2⟩
              simp only [clientLoadMany, hsl2]
              rcases hsm2 : clientLoadMany stB tl2 with ⟨stC, rs2⟩
              simp only []
              have := clientLoadNow_proms_mono stA t2 u2 q hq2
              rw [hsl2] at this
              have := ih2 stB q this
              rwa [hsm2] at this
        rw [← hpe2]
        have := hmono tl st1 r hret
        rwa [hsm] at this
      · exact hrest.2 e he2 pid hpe

theorem clientRunQueued_barrier :
    ∀ (q : List (String × String)) (st : ClientState), BarrierInvC st →
      BarrierInvC (clientRunQueued st q) := by
  intro q
  induction q with
  | nil =>
      intro st h
      simpa [clientRunQueued] using h
  | cons hd tl ih =>
      obtain ⟨t, u⟩ := hd
      intro st h
      simp only [clientRunQueued]
      exact ih _ (clientLoadNow_barrier st t u h)

theorem clientCheckBarrier_barrier (st : ClientState) (h : BarrierInvC st) :
    BarrierInvC (clientCheckBarrier st) := by
  obtain ⟨h1, h2, h3, h4⟩ := h
  unfold clientCheckBarrier
  split
  · next hcond =>
      apply clientRunQueued_barrier
      refine ⟨h1, h2, h3, ?_⟩
      intro _
      exact (Bool.and_eq_true _ _ |>.mp hcond).2
  · exact ⟨h1, h2, h3, h4⟩

theorem clientSettle_barrier (st : ClientState) (pid : Nat) (res : Except String Unit)
    (h : BarrierInvC st) : BarrierInvC (clientSettle st pid res) := by
  obtain ⟨h1, h2, h3, h4⟩ := h
  unfold clientSettle
  cases hg : getKV st.proms pid with
  | none => exact ⟨h1, h2, h3, h4⟩
  | some ps =>
      cases ps with
      | pending =>
          have hcore : ∀ (v : PromState) (rs : List (String × Nat)),
              BarrierInvC { st with
                proms := setKV st.proms pid v
                results := rs } := by
            intro v rs
            refine ⟨?_, ?_, ?_, ?_⟩
            · intro p ps2 hm
              rcases mem_setKV _ _ _ _ hm with he | hm2
              · cases he
                exact h1 pid .pending (mem_of_getKV _ _ _ hg)
              · exact h1 p ps2 hm2
            · intro k q hgq
              exact getKV_isSome_setKV_mono _ _ _ _ (h2 k q hgq)
            · intro e he q hqe
              exact getKV_isSome_setKV_mono _ _ _ _ (h3 e he q hqe)
            · intro hf
              refine allSettledB_mono st.proms _ st.batchPids ?_ (h4 hf)
              intro q hm hset
              by_cases hqp : q = pid
              · rw [hqp] at hset
                unfold isSettled at hset
                rw [hg] at hset
                cases hset
              · rw [isSettled_setKV_ne st.proms q pid v hqp]
                exact hset
          cases res with
          | ok v =>
              apply clientCheckBarrier_barrier
              cases hk : getKV st.pidKey pid with
              | some key => exact hcore .fulfilled (setKV st.results key pid)
              | none => exact hcore .fulfilled st.results
          | error m =>
              apply clientCheckBarrier_barrier
              have := hcore (.rejectedWith (some m)) st.results
              exact this
      | fulfilled => exact ⟨h1, h2, h3, h4⟩
      | rejectedWith m => exact ⟨h1, h2, h3, h4⟩

theorem clientStep_barrier (st st2 : ClientState) (op : COp) (h : BarrierInvC st)
    (hs : clientStep st op = some st2) : BarrierInvC st2 := by
  obtain ⟨h1, h2, h3, h4⟩ := h
  cases op with
  | preload t u =>
      simp only [clientStep] at hs
      cases hs
      exact ⟨h1, h2, h3, h4⟩
  | execPreload =>
      simp only [clientStep, clientExecPreload] at hs
      by_cases hp : st.preloaderActive = true
      · simp [hp] at hs
      · simp only [hp] at hs
        simp at hs
        rcases hsm : clientLoadMany st st.preloadItems with ⟨st1, rets⟩
        rw [hsm] at hs
        simp at hs
        have hmany := clientLoadMany_barrier st.preloadItems st ⟨h1, h2, h3, h4⟩
        rw [hsm] at hmany
        obtain ⟨⟨g1, g2, g3, g4⟩, gret⟩ := hmany
        rw [← hs]
        apply clientCheckBarrier_barrier
        exact ⟨g1, g2, gret, by intro hf; cases hf⟩
  | load t u =>
      simp only [clientStep] at hs
      by_cases hp : st.preloaderActive = true
      · simp only [hp, if_true] at hs
        cases hs
        exact ⟨h1, h2, h3, h4⟩
      · simp only [hp] at hs
        simp at hs
        rw [← hs]
        exact clientLoadNow_barrier st t u ⟨h1, h2, h3, h4⟩
  | settle pid res =>
      simp only [clientStep] at hs
      cases hs
      exact clientSettle_barrier st pid res ⟨h1, h2, h3, h4⟩

theorem runClient_barrier_aux :
    ∀ (ops : List COp) (st0 st : ClientState), BarrierInvC st0 →
      List.foldlM clientStep st0 ops = some st → BarrierInvC st := by
  intro ops
  induction ops with
  | nil =>
      intro st0 st h hf
      simp [List.foldlM] at hf
      rw [← hf]
      exact h
  | cons op ops ih =>
      intro st0 st h hf
      simp only [List.foldlM] at hf
      cases hstep : clientStep st0 op with
      | none => rw [hstep] at hf; cases hf
      | some st1 =>
          rw [hstep] at hf
          exact ih st1 st (clientStep_barrier st0 st1 op h hstep) hf

theorem clientInit_barrier : BarrierInvC clientInit := by
  refine ⟨?_, ?_, ?_, ?_⟩
  · intro p ps h
    simp [clientInit] at h
  · intro k pid h
    simp [clientInit, getKV] at h
  · intro e h
    simp [clientInit] at h
  · intro h
    rfl

theorem runClient_barrier (ops : List COp) (st : ClientState)
    (h : runClient ops = some st) : BarrierInvC st :=
  runClient_barrier_aux ops clientInit st clientInit_barrier h

/-- Claim C3 counterexample: in the server loader, a `load` issued while the
preload batch is still settling is not delayed.  After registering and
executing a one-item preload and, before it settles, loading a second model,
the second key's fetch has already started (`st.fetches` holds both keys)
while the barrier has not fired (`st.fired = false`, the batch still
pending) — `ServerLoader.load` never awaits `this.preloader`. -/
theorem C3_counterexample :
    (runServer [SOp.preload "model" "u1", SOp.execPreload, SOp.load "model" "u2"]).map
        (fun st => (st.fetches, st.fired, st.preloaderActive))
      = some ((["model/u1", "model/u2"], false, true) :
          List String × Bool × Bool) := by
  rfl

/-- Claim C3 (amended): in both loader variants, executing a preload of the
registered pairs produces its aggregate completion signal only after every
batch entry has settled (whenever the continuation has run, the whole batch
is settled); a `load` call issued while the batch is still settling is
delayed until the batch settles in the client loader only — it is queued
with no other state change, its fetch not yet started — while the server
loader processes such a `load` immediately. -/
theorem C3_amended_thm :
    (∀ (ops : List SOp) (st : ServerState), runServer ops = some st →
        st.fired = true → allSettledB st.proms st.batchPids = true)
    ∧ (∀ (ops : List COp) (st : ClientState), runClient ops = some st →
        st.fired = true → allSettledB st.proms st.batchPids = true)
    ∧ (∀ (st : ClientState) (t u : String), st.preloaderActive = true →
        clientStep st (.load t u)
          = some { st with queuedLoads := st.queuedLoads ++ [(t, u)] })
    ∧ (∀ (st : ServerState) (t u : String),
        serverStep st (.load t u) = some (serverLoadNow st t u).1) := by
  refine ⟨?_, ?_, ?_, ?_⟩
  · intro ops st h hf
    exact (runServer_barrier ops st h).2.2.2 hf
  · intro ops st h hf
    exact (runClient_barrier ops st h).2.2.2 hf
  · intro st t u hp
    simp [clientStep, hp]
  · intro st t u
    rfl

/-- Witness for C3_amended_thm: concrete one-item preload traces whose
barrier has fired with the batch settled, and a gated client `load` that is
queued without starting a fetch. -/
theorem C3_witness :
    allSettledB [(0, PromState.fulfilled)] [some 0] = true
      ∧ clientStep { clientInit with preloaderActive := true } (.load "model" "u")
          = some { clientInit with preloaderActive := true, queuedLoads := [("model", "u")] } := by
  constructor
  · exact C3_amended_thm.1 [SOp.preload "model" "u1", SOp.execPreload, SOp.settle 0 (.ok ())]
      ⟨[("model/u1", some 0)], [("model/u1", 0)], [(0, PromState.fulfilled)],
       [(0, "model/u1")], ["model/u1"], [("model", "u1")], false, [some 0], true,
       [("model/u1", some 0)], 1⟩ (by rfl) rfl
  · exact C3_amended_thm.2.2.1 { clientInit with preloaderActive := true } "model" "u" rfl

/-- Claim C10: for any asset type outside model/emote/avatar/script/audio
(hdr, image and texture included, their branches being commented out),
`ServerLoader.load` on a fresh key stores `undefined` in the promise cache
and returns `undefined` rather than a promise, yet `has(type, url)` reports
`true` afterwards and no fetch was started; and for type `audio` on a fresh
key it returns a promise that is already rejected with `null`, again with no
fetch. -/
theorem C10_thm :
    (∀ (st : ServerState) (t u : String),
        getKV st.promises (t ++ "/" ++ u) = none →
        t ≠ "model" → t ≠ "emote" → t ≠ "avatar" → t ≠ "script" → t ≠ "audio" →
        (serverLoadNow st t u).2 = none
        ∧ getKV ((serverLoadNow st t u).1).promises (t ++ "/" ++ u) = some none
        ∧ serverHas (serverLoadNow st t u).1 t u = true
        ∧ ((serverLoadNow st t u).1).fetches = st.fetches)
    ∧ (∀ (st : ServerState) (u : String),
        getKV st.promises ("audio/" ++ u) = none →
        (serverLoadNow st "audio" u).2 = some st.nextId
        ∧ getKV ((serverLoadNow st "audio" u).1).proms st.nextId
            = some (PromState.rejectedWith none)
        ∧ ((serverLoadNow st "audio" u).1).fetches = st.fetches) := by
  constructor
  · intro st t u hget hm1 hm2 hm3 hm4 hm5
    have c1 : ¬ ((t = "model" || t = "emote" || t = "script" : Bool) = true) := by
      simp [hm1, hm2, hm4]
    have c2 : ¬ ((t = "avatar" : Bool) = true) := by simp [hm3]
    have c3 : ¬ ((t = "audio" : Bool) = true) := by simp [hm5]
    simp only [serverLoadNow, hget]
    rw [if_neg c1, if_neg hm3, if_neg hm5]
    refine ⟨rfl, getKV_setKV_self _ _ _, ?_, rfl⟩
    unfold serverHas hasKV
    rw [getKV_setKV_self]
    rfl
  · intro st u hget
    have hget2 : getKV st.promises ("audio" ++ "/" ++ u) = none := hget
    have c1 : (("audio" : String) = "model" || ("audio" : String) = "emote"
        || ("audio" : String) = "script" : Bool) = false := by decide
    have c2 : (("audio" : String) = "avatar" : Bool) = false := by decide
    simp only [serverLoadNow, hget2]
    rw [if_neg (by simp [c1]), if_neg (show ¬ ("audio" : String) = "avatar" by decide)]
    simp only [if_true]
    refine ⟨?_, ?_, ?_⟩
    · first
      | rfl
      | trivial
    · exact getKV_setKV_self _ _ _
    · first
      | rfl
      | trivial

/-- Witness for C10_thm: a fresh `hdr` load on the initial state and a fresh
`audio` load on the initial state. -/
theorem C10_witness :
    ((serverLoadNow serverInit "hdr" "u").2 = none
      ∧ getKV ((serverLoadNow serverInit "hdr" "u").1).promises "hdr/u" = some none
      ∧ serverHas (serverLoadNow serverInit "hdr" "u").1 "hdr" "u" = true
      ∧ ((serverLoadNow serverInit "hdr" "u").1).fetches = serverInit.fetches)
    ∧ ((serverLoadNow serverInit "audio" "u").2 = some serverInit.nextId
      ∧ getKV ((serverLoadNow serverInit "audio" "u").1).proms serverInit.nextId
          = some (PromState.rejectedWith none)
      ∧ ((serverLoadNow serverInit "audio" "u").1).fetches = serverInit.fetches) :=
  ⟨C10_thm.1 serverInit "hdr" "u" rfl (by decide) (by decide) (by decide) (by decide)
      (by decide),
   C10_thm.2 serverInit "u" rfl⟩

/-! Helper lemmas relating the hash-name pattern to substring containment. -/

theorem inclAux_of_prefix_drop (needle : List Char) :
    ∀ (l : List Char) (k : Nat), needle.isPrefixOf (l.drop k) = true →
      inclAux needle l = true := by
  intro l
  induction l with
  | nil =>
      intro k h
      simp only [List.drop_nil] at h
      cases needle with
      | nil => rfl
      | cons c cs => simp [List.isPrefixOf] at h
  | cons c rest ih =>
      intro k h
      cases k with
      | zero =>
          simp only [List.drop_zero] at h
          simp [inclAux, h]
      | succ k2 =>
          simp only [List.drop_succ_cons] at h
          simp [inclAux, ih k2 h]

theorem hashGlbAt_starts_dotglb (l : List Char) (h : hashGlbAt l = true) :
    (['.', 'g', 'l', 'b'] : List Char).isPrefixOf (l.drop 64) = true := by
  unfold hashGlbAt at h
  simp only [Bool.and_eq_true, beq_iff_eq] at h
  have hp : (['.', 'g', 'l', 'b'] : List Char) <+: l.drop 64 := by
    rw [← h.2]
    exact List.take_prefix 4 _
  exact List.isPrefixOf_iff_prefix.mpr hp

theorem containsHashGlb_includes (s : String) (h : containsHashGlb s = true) :
    strIncludes s ".glb" = true := by
  unfold containsHashGlb at h
  unfold strIncludes
  have hg4 : (".glb".toList : List Char) = ['.', 'g', 'l', 'b'] := rfl
  rw [hg4]
  revert h
  induction s.toList with
  | nil => intro h; cases h
  | cons c rest ih =>
      intro h
      simp only [containsHashGlbL, Bool.or_eq_true] at h
      rcases h with h | h
      · exact inclAux_of_prefix_drop _ (c :: rest) 64 (hashGlbAt_starts_dotglb _ h)
      · simp [inclAux, ih h]

theorem fallbackScan_none (env : SLEnv) (url : String)
    (hemote : strIncludes url "emote" = false) :
    ∀ l : List String, fallbackScan env url l = none := by
  intro l
  induction l with
  | nil => rfl
  | cons b rest ih => simp [fallbackScan, hemote, ih]

/-- Claim C4 counterexample: a cached model load (`ServerLoader.load`)
whose reference matches the 64-hex-character hash naming convention and
whose fetch fails with a not-found status ends as a rejected promise
carrying the 404 error — it raises rather than resolving to a placeholder,
and no second (fallback) fetch is started: the promise-cached model branch
never calls `loadModel`, which is where the fallback lives. -/
theorem C4_counterexample :
    (runServer [SOp.load "model" c4HashUrl,
                SOp.settle 0 (.error "HTTP 404: Not Found")]).map
        (fun st => (getKV st.proms 0, st.fetches.length))
      = some (some (PromState.rejectedWith (some "HTTP 404: Not Found")), 1)
    ∧ containsHashGlb c4HashUrl = true
    ∧ strIncludes "HTTP 404: Not Found" "404" = true := by
  refine ⟨rfl, by decide, by decide⟩

/-- Claim C4 (amended): the placeholder fallback applies to the standalone
`loadModel` routine, not to the promise-cached `load('model', url)` path.
Within `loadModel`, a model reference that resolves to a hash-named URL and
fails to fetch with a not-found status resolves to the built-in placeholder
model (provided the placeholder itself fetches and parses), while a
reference that does not resolve to a hash-named URL and fails to fetch still
raises the original error. -/
theorem C4_amended_thm :
    (∀ (env : SLEnv) (url emsg : String) (b g : Nat),
        env.fetchBuf (env.resolve url) = .error emsg →
        strIncludes emsg "404" = true →
        containsHashGlb (env.resolve url) = true →
        strIncludes url "emote" = false →
        env.resolve "asset://crash-block.glb" ≠ env.resolve url →
        env.fetchBuf (env.resolve "asset://crash-block.glb") = .ok b →
        env.parseGlb b = .ok g →
        loadModelFn env url = .ok g)
    ∧ (∀ (env : SLEnv) (url emsg : String),
        containsHashGlb (env.resolve url) = false →
        env.fetchBuf (env.resolve url) = .error emsg →
        loadModelFn env url = .error emsg) := by
  constructor
  · intro env url emsg b g hfetch h404 hhash hemote hne hfb hparse
    have hglb : strIncludes (env.resolve url) ".glb" = true :=
      containsHashGlb_includes _ hhash
    unfold loadModelFn
    simp only [fetchAndParse, hfetch]
    rw [if_pos (by simp [hglb, h404])]
    unfold tryGetBuiltInFallback
    rw [hhash]
    simp only [Bool.not_true, Bool.false_eq_true, if_false]
    rw [fallbackScan_none env url hemote builtInAssets]
    simp only []
    rw [if_pos hne]
    simp only [fetchAndParse, hfb, hparse]
  · intro env url emsg hhash hfetch
    unfold loadModelFn
    simp only [fetchAndParse, hfetch]
    by_cases hc : ((strIncludes (env.resolve url) ".glb" && strIncludes emsg "404")
        || strIncludes emsg "403") = true
    · rw [if_pos hc]
      unfold tryGetBuiltInFallback
      rw [hhash]
      simp
    · rw [if_neg hc]

/-- Witness for C4_amended_thm: under `c4Env` the hash-named reference that
404s resolves to the parsed placeholder, and a plain-named reference that
404s raises. -/
theorem C4_witness :
    loadModelFn c4Env c4HashUrl = .ok 42
      ∧ loadModelFn c4Env "logo.glb" = .error "HTTP 404: Not Found" :=
  ⟨C4_amended_thm.1 c4Env c4HashUrl "HTTP 404: Not Found" 7 42
      rfl (by decide) (by decide) (by decide) (by decide) rfl rfl,
   C4_amended_thm.2 c4Env "logo.glb" "HTTP 404: Not Found" (by decide) rfl⟩

end Hyperfy
